import Mathlib

/-! ## bugprone-unused-ntd-object: the unused-value walker

A shallow embedding of `clang-tools-extra/clang-tidy/bugprone/UnusedNtdObjectCheck.cpp`
(class `UnusedVariableVisitor` and `UnusedNtdObjectCheck::check`) and the properties of the
walker that the specification states.

The syntax tree is a finite tree of nodes.  The walker only distinguishes four node classes
(`DeclRefExpr`, `BinaryOperator`, `CXXOperatorCallExpr`, everything else), so the tree type has
one constructor for each.  A child pointer of a generic node may be null (`none`).
-/

/-- A statement or expression node (`clang::Stmt`), by the node classes that
`UnusedVariableVisitor::TraverseStmt` tells apart.

* `DeclRefExpr Identifier`: a reference to a declaration; `Identifier` is
  `getDecl()->getIdentifier()`, `none` when that pointer is null (operators, constructors),
  otherwise the spelling `getName()`.  The source's test
  `Identifier != nullptr && Identifier->getName() == VariableName` is
  `Identifier = some VariableName`.
* `BinaryOperator isAssign LHS RHS`: a built-in binary operator; `isAssign` is
  `getOpcode() == BO_Assign`.
* `CXXOperatorCallExpr isAssignmentOp args`: a call of an overloaded operator; `args` are
  `getArg(0) .. getArg(getNumArgs() - 1)`.  The callee child is left out: it is a reference to
  the operator function, whose declaration has no identifier (`getIdentifier()` is null) and
  which has no operands, so no rule of the walker applies to it.
* `Other children`: a node of any other class, with its child pointers in source order. -/
inductive Stmt where
  | DeclRefExpr (Identifier : Option String)
  | BinaryOperator (isAssign : Bool) (LHS RHS : Stmt)
  | CXXOperatorCallExpr (isAssignmentOp : Bool) (args : List Stmt)
  | Other (children : List (Option Stmt))

namespace Stmt

/-- The child pointers of a node in source order (`Stmt::children()`): none for a reference,
the two operands of a binary operator, the arguments of an operator call. -/
def children : Stmt → List (Option Stmt)
  | DeclRefExpr _ => []
  | BinaryOperator _ l r => [some l, some r]
  | CXXOperatorCallExpr _ args => args.map some
  | Other cs => cs

mutual
/-- Number of nodes of a subtree (null child pointers count one each); the termination measure
of the walker. -/
def size : Stmt → Nat
  | DeclRefExpr _ => 1
  | BinaryOperator _ l r => 1 + (size l + (size r + 0))
  | CXXOperatorCallExpr _ args => 1 + sizeArgs args
  | Other cs => 1 + sizeChildren cs
/-- Total size of an argument list. -/
def sizeArgs : List Stmt → Nat
  | [] => 0
  | a :: as => size a + sizeArgs as
/-- Total size of a list of child pointers. -/
def sizeChildren : List (Option Stmt) → Nat
  | [] => 0
  | c :: cs => sizeOpt c + sizeChildren cs
/-- Size of what a child pointer points to. -/
def sizeOpt : Option Stmt → Nat
  | none => 1
  | some s => size s
end

theorem sizeChildren_map_some (args : List Stmt) :
    sizeChildren (args.map some) = sizeArgs args := by
  induction args with
  | nil => simp [sizeChildren, sizeArgs]
  | cons a as ih => simp [sizeChildren, sizeArgs, sizeOpt, ih]

theorem size_eq (s : Stmt) : s.size = 1 + sizeChildren s.children := by
  cases s <;> simp [size, children, sizeChildren, sizeOpt, sizeChildren_map_some]

theorem sizeOpt_pos (c : Option Stmt) : 1 ≤ sizeOpt c := by
  cases c <;> simp [sizeOpt, size_eq]

mutual
/-- All nodes of a subtree, the root first, in source order. -/
def subnodes : Stmt → List Stmt
  | DeclRefExpr i => [DeclRefExpr i]
  | BinaryOperator b l r => BinaryOperator b l r :: (subnodes l ++ (subnodes r ++ []))
  | CXXOperatorCallExpr b args => CXXOperatorCallExpr b args :: subnodesArgs args
  | Other cs => Other cs :: subnodesChildren cs
/-- All nodes below a list of arguments. -/
def subnodesArgs : List Stmt → List Stmt
  | [] => []
  | a :: as => subnodes a ++ subnodesArgs as
/-- All nodes below a list of child pointers. -/
def subnodesChildren : List (Option Stmt) → List Stmt
  | [] => []
  | c :: cs => subnodesOpt c ++ subnodesChildren cs
/-- All nodes below a child pointer. -/
def subnodesOpt : Option Stmt → List Stmt
  | none => []
  | some s => subnodes s
end

/-- The operands `(LHS, RHS)` of a node that `TraverseStmt` hands to
`ProcessAssignmentOperator`: a `BinaryOperator` with opcode `BO_Assign`
(`getLHS()`, `getRHS()`), or a `CXXOperatorCallExpr` with `isAssignmentOp()` and
`getNumArgs() == 2` (`getArg(0)`, `getArg(1)`). -/
def asAssignment : Stmt → Option (Stmt × Stmt)
  | BinaryOperator true l r => some (l, r)
  | CXXOperatorCallExpr true [l, r] => some (l, r)
  | _ => none

/-- The node is a `DeclRefExpr` whose identifier is non-null and spelled `VariableName`: a
bare reference to the tracked identifier. -/
def refersTo (VariableName : String) : Stmt → Bool
  | DeclRefExpr Identifier => decide (Identifier = some VariableName)
  | _ => false

/-- The node is a `DeclRefExpr` (`getStmtClass() == Stmt::DeclRefExprClass`). -/
def isDeclRefExpr : Stmt → Bool
  | DeclRefExpr _ => true
  | _ => false

/-- The node is a write of the tracked identifier: an assignment (built-in or overloaded)
whose left operand is a bare reference to it. -/
def isWrite (VariableName : String) (s : Stmt) : Bool :=
  match s.asAssignment with
  | some (l, _) => refersTo VariableName l
  | none => false

/-- The subtree contains a reference node naming the tracked identifier. -/
def mentions (VariableName : String) (s : Stmt) : Bool :=
  s.subnodes.any (refersTo VariableName)

/-- The subtree contains an assignment node (built-in or overloaded). -/
def hasAssignment (s : Stmt) : Bool :=
  s.subnodes.any (fun n => n.asAssignment.isSome)

/-- The subtree contains a write of the tracked identifier. -/
def hasWrite (VariableName : String) (s : Stmt) : Bool :=
  s.subnodes.any (isWrite VariableName)

/-- A call expression (`CallExpr`): a generic node whose children are the callee followed by
the arguments. -/
def CallExpr (callee : Stmt) (args : List Stmt) : Stmt :=
  Other (some callee :: args.map some)

/-- A unary operator (`UnaryOperator`, for instance a dereference): a generic node with the
operand as its only child. -/
def UnaryOperator (sub : Stmt) : Stmt :=
  Other [some sub]

end Stmt

/-- The mutable members of `UnusedVariableVisitor` (the walk state): `FoundUsage` and
`UnusedInAssign`, both initialised to `false`.  The member `VariableName` is set by the
constructor and never assigned afterwards; it is a parameter of every member function below. -/
structure UnusedVariableVisitor where
  FoundUsage : Bool := false
  UnusedInAssign : Bool := false
deriving DecidableEq, Repr

open Stmt

mutual
/-- `UnusedVariableVisitor::TraverseStmt(Stmt *)` (lines 63-106): returns the `bool` result and
the members after the call.  A null pointer returns `true`.  A built-in assignment or a
two-argument overloaded assignment is first given to `ProcessAssignmentOperator`; when that
returns a value, it is returned.  Otherwise a `DeclRefExpr` naming `VariableName` sets
`FoundUsage`, the base-class traversal runs on the node with its result discarded, and the
function returns `true`. -/
def UnusedVariableVisitor.TraverseStmt (VariableName : String) (S : Option Stmt)
    (V : UnusedVariableVisitor) : Bool × UnusedVariableVisitor :=
  match S with
  | none => (true, V)
  | some (.BinaryOperator true LHS RHS) =>
    match UnusedVariableVisitor.ProcessAssignmentOperator VariableName LHS RHS V with
    | (some ProcessingResult, V1) => (ProcessingResult, V1)
    | (none, V1) =>
      (true, (RecursiveASTVisitor.TraverseStmt VariableName
        (some (.BinaryOperator true LHS RHS)) V1).2)
  | some (.CXXOperatorCallExpr true [LHS, RHS]) =>
    match UnusedVariableVisitor.ProcessAssignmentOperator VariableName LHS RHS V with
    | (some ProcessingResult, V1) => (ProcessingResult, V1)
    | (none, V1) =>
      (true, (RecursiveASTVisitor.TraverseStmt VariableName
        (some (.CXXOperatorCallExpr true [LHS, RHS])) V1).2)
  | some (.DeclRefExpr Identifier) =>
    let V1 : UnusedVariableVisitor :=
      if Identifier = some VariableName then { V with FoundUsage := true } else V
    (true, (RecursiveASTVisitor.TraverseStmt VariableName
      (some (.DeclRefExpr Identifier)) V1).2)
  | some s => (true, (RecursiveASTVisitor.TraverseStmt VariableName (some s) V).2)
termination_by 4 * sizeOpt S + 3
decreasing_by
  all_goals simp_wf
  all_goals simp only [sizeOpt, size, sizeArgs]
  all_goals omega

/-- `UnusedVariableVisitor::ProcessAssignmentOperator(LHS, RHS)` (lines 125-141): the
`std::optional<bool>` result and the members after the call.  When `LHS` is a `DeclRefExpr`:
if it names `VariableName` and no usage was found, `UnusedInAssign` is set and `false` is
returned; if it names `VariableName` and a usage was found, `FoundUsage` is reset; then the
base-class traversal runs on `RHS` with its result discarded and `true` is returned.  When `LHS`
is not a `DeclRefExpr` the result is `nullopt`. -/
def UnusedVariableVisitor.ProcessAssignmentOperator (VariableName : String) (LHS RHS : Stmt)
    (V : UnusedVariableVisitor) : Option Bool × UnusedVariableVisitor :=
  match LHS with
  | .DeclRefExpr Identifier =>
    if Identifier = some VariableName then
      if !V.FoundUsage then
        (some false, { V with UnusedInAssign := true })
      else
        (some true, (RecursiveASTVisitor.TraverseStmt VariableName (some RHS)
          { V with FoundUsage := false }).2)
    else
      (some true, (RecursiveASTVisitor.TraverseStmt VariableName (some RHS) V).2)
  | _ => (none, V)
termination_by 4 * size RHS + 2
decreasing_by
  all_goals simp_wf
  all_goals simp only [sizeOpt]
  all_goals omega

/-- Modelled from the spec: `RecursiveASTVisitor<UnusedVariableVisitor>::TraverseStmt`, the
base-class traversal of the host framework (`clang/AST/RecursiveASTVisitor.h`, not among the
files of the check).  Spec 4.2, rule 3: "recurse into every child in source order, applying the
same rules".  It does not apply the rules to the node it is called on: line 103 calls it on the
very node whose rules `TraverseStmt` has just applied.  A null pointer is a no-op. -/
def RecursiveASTVisitor.TraverseStmt (VariableName : String) (S : Option Stmt)
    (V : UnusedVariableVisitor) : Bool × UnusedVariableVisitor :=
  match S with
  | none => (true, V)
  | some s => RecursiveASTVisitor.TraverseChildren VariableName s.children V
termination_by 4 * sizeOpt S + 1
decreasing_by
  all_goals simp_wf
  all_goals simp only [sizeOpt, size_eq]
  all_goals omega

/-- Modelled from the spec: the child loop of the base-class traversal
(`for (Stmt *SubStmt : children) if (!getDerived().TraverseStmt(SubStmt)) return false;`, not
among the files of the check).  Spec 4.2: the children are traversed in source order by the
walker's own `TraverseStmt`, "with early termination per sub-expression": the first child whose
traversal returns `false` ends the loop with `false`. -/
def RecursiveASTVisitor.TraverseChildren (VariableName : String)
    (Children : List (Option Stmt)) (V : UnusedVariableVisitor) :
    Bool × UnusedVariableVisitor :=
  match Children with
  | [] => (true, V)
  | SubStmt :: Rest =>
    match UnusedVariableVisitor.TraverseStmt VariableName SubStmt V with
    | (true, V1) => RecursiveASTVisitor.TraverseChildren VariableName Rest V1
    | (false, V1) => (false, V1)
termination_by 4 * sizeChildren Children + 4
decreasing_by
  all_goals simp_wf
  all_goals simp only [sizeChildren]
  all_goals first
    | omega
    | skip
  all_goals
    have hpos := sizeOpt_pos (by assumption)
    omega
end

/-- `UnusedVariableVisitor::IsUnused()` (line 110). -/
def UnusedVariableVisitor.IsUnused (V : UnusedVariableVisitor) : Bool :=
  V.UnusedInAssign || !V.FoundUsage

/-- Modelled from the spec: `RecursiveASTVisitor::TraverseCompoundStmt(S, nullptr)`, the
base-class traversal of a statement block (not among the files of the check): the statements of
the block are the children, traversed in source order as in `TraverseChildren`.  A block is the
list of its top-level statements (none of them null). -/
def RecursiveASTVisitor.TraverseCompoundStmt (VariableName : String) (LocalScope : List Stmt)
    (V : UnusedVariableVisitor) : Bool × UnusedVariableVisitor :=
  RecursiveASTVisitor.TraverseChildren VariableName (LocalScope.map some) V

/-- The verdict of a fresh walker on a block for a given `VariableName` (lines 157-158 after
the construction of the visitor): traverse the block (the traversal's result is discarded),
ask `IsUnused()`. -/
def UnusedVariableVisitor.verdict (VariableName : String) (LocalScope : List Stmt) : Bool :=
  (RecursiveASTVisitor.TraverseCompoundStmt VariableName LocalScope {}).2.IsUnused

/-- A local variable declaration (`VarDecl`) as `check` reads it: `hasAttr<UnusedAttr>()`,
`getIdentifier()` (`none` when null) and `getLocation()`. -/
structure VarDecl where
  hasUnusedAttr : Bool
  Identifier : Option String
  Location : Nat
deriving DecidableEq, Repr

/-- A diagnostic emitted through `diag(Location, Message) << Argument`. -/
structure Diagnostic where
  Location : Nat
  Message : String
  Argument : VarDecl
deriving DecidableEq, Repr

/-- `UnusedNtdObjectCheck::check` (lines 144-165) on a matched pair ("scope", "local-value"):
the list of diagnostics it emits.

Line 156 constructs the visitor from `Variable->getIdentifier()->getName().str()`, a temporary
`std::string`.  The constructor parameter and the member `VariableName` are `StringRef`
(lines 61 and 113): a pointer into the storage of that temporary, which is destroyed at the
end of line 156, before the walk of line 157.  The comparisons of lines 99 and 129 therefore
read the name through a dangling pointer, and the program does not determine what they read.
`NameStorage Name` stands for the characters read during the walk where the name `Name` was
stored; `fun Name => Name` is a storage that still holds the name. -/
def UnusedNtdObjectCheck.check (NameStorage : String → String) (LocalScope : List Stmt)
    (Variable : VarDecl) : List Diagnostic :=
  if Variable.hasUnusedAttr then []
  else
    match Variable.Identifier with
    | none => []
    | some Name =>
      if !UnusedVariableVisitor.verdict (NameStorage Name) LocalScope then []
      else
        [{ Location := Variable.Location,
           Message := "%0 is unlikely to be RAII and is potentially unused",
           Argument := Variable }]

/-! ## A reference walker without early exit

The walker of the early-exit claim: it applies the rules of `TraverseStmt` node by node and
sets `UnusedInAssign` at a write that finds no usage, but it has no result to stop on: every
child of every node is traversed. -/

mutual
/-- The reference walker on a node: the rules of `UnusedVariableVisitor.TraverseStmt`, with the
members after the call as the only result. -/
def ReferenceWalker.TraverseStmt (VariableName : String) (S : Option Stmt)
    (V : UnusedVariableVisitor) : UnusedVariableVisitor :=
  match S with
  | none => V
  | some (.BinaryOperator true LHS RHS) =>
    match ReferenceWalker.ProcessAssignmentOperator VariableName LHS RHS V with
    | some V1 => V1
    | none =>
      ReferenceWalker.TraverseChildren VariableName
        (Stmt.BinaryOperator true LHS RHS).children V
  | some (.CXXOperatorCallExpr true [LHS, RHS]) =>
    match ReferenceWalker.ProcessAssignmentOperator VariableName LHS RHS V with
    | some V1 => V1
    | none =>
      ReferenceWalker.TraverseChildren VariableName
        (Stmt.CXXOperatorCallExpr true [LHS, RHS]).children V
  | some (.DeclRefExpr Identifier) =>
    ReferenceWalker.TraverseChildren VariableName (Stmt.DeclRefExpr Identifier).children
      (if Identifier = some VariableName then { V with FoundUsage := true } else V)
  | some s => ReferenceWalker.TraverseChildren VariableName s.children V
termination_by 4 * sizeOpt S + 3
decreasing_by
  all_goals simp_wf
  all_goals simp only [sizeOpt, size_eq, Stmt.children, sizeChildren, List.map]
  all_goals omega

/-- The reference walker on an assignment: the rules of
`UnusedVariableVisitor.ProcessAssignmentOperator`, except that a write that finds no usage
sets `UnusedInAssign` and goes on with the right operand instead of returning `false`.  The
result is `none` where the source returns `nullopt`. -/
def ReferenceWalker.ProcessAssignmentOperator (VariableName : String) (LHS RHS : Stmt)
    (V : UnusedVariableVisitor) : Option UnusedVariableVisitor :=
  match LHS with
  | .DeclRefExpr Identifier =>
    if Identifier = some VariableName then
      if !V.FoundUsage then
        some (ReferenceWalker.TraverseChildren VariableName RHS.children
          { V with UnusedInAssign := true })
      else
        some (ReferenceWalker.TraverseChildren VariableName RHS.children
          { V with FoundUsage := false })
    else
      some (ReferenceWalker.TraverseChildren VariableName RHS.children V)
  | _ => none
termination_by 4 * size RHS + 2
decreasing_by
  all_goals simp_wf
  all_goals simp only [size_eq]
  all_goals omega

/-- The reference walker on a child list: every child is traversed, in source order. -/
def ReferenceWalker.TraverseChildren (VariableName : String) (Children : List (Option Stmt))
    (V : UnusedVariableVisitor) : UnusedVariableVisitor :=
  match Children with
  | [] => V
  | SubStmt :: Rest =>
    ReferenceWalker.TraverseChildren VariableName Rest
      (ReferenceWalker.TraverseStmt VariableName SubStmt V)
termination_by 4 * sizeChildren Children + 4
decreasing_by
  all_goals simp_wf
  all_goals simp only [sizeChildren]
  all_goals first
    | omega
    | skip
  all_goals
    have hpos := sizeOpt_pos (by assumption)
    omega
end

/-- The verdict of a fresh reference walker on a block. -/
def ReferenceWalker.verdict (VariableName : String) (LocalScope : List Stmt) : Bool :=
  (ReferenceWalker.TraverseChildren VariableName (LocalScope.map some) {}).IsUnused

/-- The walker step `f` and the reference step `g` agree from every state: either `f` returns
`true` and both end in the same state, or both end with `UnusedInAssign` set. -/
def Agrees (f : UnusedVariableVisitor → Bool × UnusedVariableVisitor)
    (g : UnusedVariableVisitor → UnusedVariableVisitor) : Prop :=
  ∀ V, ((f V).1 = true ∧ (f V).2 = g V) ∨
    ((f V).2.UnusedInAssign = true ∧ (g V).UnusedInAssign = true)

/-! ## The scope selector: the matcher of `registerMatchers`

The matcher looks at the statements of a function body: blocks, declaration statements and
the declarations in them.  `BodyStmt` is the body as the matcher sees it; `BodyStmt.toStmt`
is the same tree as the walker sees it. -/

/-- A variable declared by a declaration statement, as the matcher and `check` read it: the
declaration `Var`, `isLocalVarDecl()`, the qualified name of the record declaration of its
type (`none` when the type is not a record), whether it is a `DecompositionDecl`, and its
initialiser (`getInit()`, `none` when absent). -/
structure DeclaredVar where
  Var : VarDecl
  isLocalVarDecl : Bool
  TypeName : Option String
  isDecomposition : Bool
  Init : Option Stmt

/-- A statement of a function body as the matcher sees it: a block (`CompoundStmt`), a
declaration statement (`DeclStmt`) with its declarations, an expression statement (or any
statement without sub-statements), or another statement with sub-statements (`if`, `for`,
`while`, ...). -/
inductive BodyStmt where
  | CompoundStmt (Body : List BodyStmt)
  | DeclStmt (Decls : List DeclaredVar)
  | Expr (E : Stmt)
  | Other (Children : List BodyStmt)

mutual
/-- The proper descendants of a statement, in traversal order (a node before its
descendants, siblings in source order). -/
def BodyStmt.descendants : BodyStmt → List BodyStmt
  | .CompoundStmt Body => BodyStmt.descendantsList Body
  | .DeclStmt _ => []
  | .Expr _ => []
  | .Other Children => BodyStmt.descendantsList Children
/-- The statements of a list together with their descendants, in traversal order. -/
def BodyStmt.descendantsList : List BodyStmt → List BodyStmt
  | [] => []
  | c :: cs => (c :: BodyStmt.descendants c) ++ BodyStmt.descendantsList cs
end

mutual
/-- The statement as the walker sees it: a block and any other statement are generic nodes
over their sub-statements, a declaration statement is a generic node over the initialisers
of its declarations (the base-class traversal of a `DeclStmt` traverses each declaration, and
with it the initialiser). -/
def BodyStmt.toStmt : BodyStmt → Stmt
  | .CompoundStmt Body => Stmt.Other (BodyStmt.toStmtList Body)
  | .DeclStmt Decls => Stmt.Other (Decls.map (fun d => d.Init))
  | .Expr E => E
  | .Other Children => Stmt.Other (BodyStmt.toStmtList Children)
/-- The statements of a list as child pointers of the walker's tree. -/
def BodyStmt.toStmtList : List BodyStmt → List (Option Stmt)
  | [] => []
  | c :: cs => some (BodyStmt.toStmt c) :: BodyStmt.toStmtList cs
end

/-- One match of the registered matcher: the nodes bound to "scope" (the statements of the
bound block), "decl-stmt" and "local-value". -/
structure MatchResult where
  scope : List BodyStmt
  declStmt : BodyStmt
  localValue : DeclaredVar

namespace UnusedNtdObjectCheck

/-- `AST_MATCHER(VarDecl, isLocal)` (line 22). -/
def isLocal (Node : DeclaredVar) : Bool := Node.isLocalVarDecl

/-- `AST_MATCHER_P(DeclStmt, containsAnyDeclaration, ..., InnerMatcher)` (lines 23-28):
`matchesFirstInPointerRange` over `decl_begin() .. decl_end()` stops at the first declaration
that `InnerMatcher` matches; the match succeeds when there is one, and the bindings kept are
those of that first declaration. -/
def containsAnyDeclaration (InnerMatcher : DeclaredVar → Bool) (Decls : List DeclaredVar) :
    Option DeclaredVar :=
  Decls.find? InnerMatcher

/-- `LocalValDecl` (lines 42-43): `varDecl(allOf(isLocal(), hasType(recordDecl(hasAnyName(
TypesVec)))))`.  Modelled from the spec: `hasAnyName` on the configured list is a comparison
of the type's record declaration "by exact qualified name"; `TypesVec` is the parsed
`CheckedTypes` option. -/
def LocalValDecl (TypesVec : List String) (Node : DeclaredVar) : Bool :=
  isLocal Node &&
    match Node.TypeName with
    | some Name => TypesVec.contains Name
    | none => false

/-- The statement matcher of lines 47-49: `declStmt(containsAnyDeclaration(LocalValDecl.bind(
"local-value")), unless(has(decompositionDecl())))`.  The result is the declaration bound to
"local-value" when the statement matches. -/
def declStmtMatcher (TypesVec : List String) : BodyStmt → Option DeclaredVar
  | .DeclStmt Decls =>
    match containsAnyDeclaration (LocalValDecl TypesVec) Decls with
    | some Variable => if Decls.any (fun d => d.isDecomposition) then none else some Variable
    | none => none
  | _ => none

/-- The matcher `FunctionScope` of `registerMatchers` (lines 44-51) on a function with the
given body: `functionDecl(hasBody(compoundStmt(forEachDescendant(declStmt(...).bind(
"decl-stmt"))).bind("scope")))`.  Modelled from the spec: `hasBody` applies the inner matcher
to the body of the function, and `forEachDescendant` gives one match for every descendant of
the bound node that the inner matcher matches ("descendant-first search within the body's
outermost block"). -/
def FunctionScope (TypesVec : List String) (FunctionBody : BodyStmt) : List MatchResult :=
  match FunctionBody with
  | .CompoundStmt Body =>
    (BodyStmt.descendants (.CompoundStmt Body)).filterMap
      (fun d => (declStmtMatcher TypesVec d).map
        (fun Variable => { scope := Body, declStmt := d, localValue := Variable }))
  | _ => []

/-- The check on a function: `check` runs once on every match, with the statements bound to
"scope" as the walker's block and the declaration bound to "local-value" as the variable. -/
def diagnostics (NameStorage : String → String) (TypesVec : List String)
    (FunctionBody : BodyStmt) : List Diagnostic :=
  ((FunctionScope TypesVec FunctionBody).map
    (fun r => check NameStorage (r.scope.map BodyStmt.toStmt) r.localValue.Var)).flatten

end UnusedNtdObjectCheck

mutual
/-- The scope selector as the specification words it, below a given nearest enclosing block:
every matching declaration statement is paired with "the nearest syntactic
sequence-of-statements ancestor containing the declaration statement". -/
def InnermostBlock.select (TypesVec : List String) (Enclosing : List BodyStmt) :
    BodyStmt → List MatchResult
  | .CompoundStmt Body => InnermostBlock.selectList TypesVec Body Body
  | .DeclStmt Decls =>
    match UnusedNtdObjectCheck.declStmtMatcher TypesVec (.DeclStmt Decls) with
    | some Variable =>
      [{ scope := Enclosing, declStmt := .DeclStmt Decls, localValue := Variable }]
    | none => []
  | .Expr _ => []
  | .Other Children => InnermostBlock.selectList TypesVec Enclosing Children
/-- The selector of the specification on the statements of a list. -/
def InnermostBlock.selectList (TypesVec : List String) (Enclosing : List BodyStmt) :
    List BodyStmt → List MatchResult
  | [] => []
  | c :: cs =>
    InnermostBlock.select TypesVec Enclosing c ++ InnermostBlock.selectList TypesVec Enclosing cs
end

/-- The scope selector as the specification words it, on a function body. -/
def InnermostBlock.FunctionScope (TypesVec : List String) (FunctionBody : BodyStmt) :
    List MatchResult :=
  match FunctionBody with
  | .CompoundStmt Body => InnermostBlock.selectList TypesVec Body Body
  | _ => []

/-! ## Properties of one traversal step

A traversal step is a function from the members before the call to the result and the members
after it.  The four properties below are closed under running the steps of a child list one
after the other. -/

/-- The step leaves the members unchanged and returns `true`. -/
def Skips (f : UnusedVariableVisitor → Bool × UnusedVariableVisitor) : Prop :=
  ∀ V, f V = (true, V)

/-- The step never clears `UnusedInAssign`, and returns `false` only with `UnusedInAssign`
set. -/
def Latches (f : UnusedVariableVisitor → Bool × UnusedVariableVisitor) : Prop :=
  ∀ V, (V.UnusedInAssign = true → (f V).2.UnusedInAssign = true) ∧
    ((f V).1 = false → (f V).2.UnusedInAssign = true)

/-- The step returns `true`, leaves `UnusedInAssign` unchanged and never clears `FoundUsage`. -/
def OnlyReads (f : UnusedVariableVisitor → Bool × UnusedVariableVisitor) : Prop :=
  ∀ V, (f V).1 = true ∧ (f V).2.UnusedInAssign = V.UnusedInAssign ∧
    (V.FoundUsage = true → (f V).2.FoundUsage = true)

/-- The step ends with `FoundUsage` set. -/
def FindsUsage (f : UnusedVariableVisitor → Bool × UnusedVariableVisitor) : Prop :=
  ∀ V, (f V).2.FoundUsage = true

/-! ## Flat blocks: kinds of statement and the alternation condition -/

/-- The three kinds of top-level statement of a flat block. -/
inductive StmtKind where
  | neutral
  | read
  | write
deriving DecidableEq, Repr

/-- The kind of a top-level statement for the tracked identifier, when it has one:
`neutral` is a subtree with no reference to the identifier and no assignment node, `read` a
subtree with a reference to the identifier and no assignment node, `write` an assignment whose
left operand is the bare reference and whose right operand is neutral. -/
def classify (VariableName : String) (s : Stmt) : Option StmtKind :=
  if s.hasAssignment = false then
    if s.mentions VariableName then some .read else some .neutral
  else
    match s.asAssignment with
    | some (l, r) =>
      if refersTo VariableName l && !r.mentions VariableName && !r.hasAssignment then
        some .write
      else none
    | none => none

/-- No two consecutive writes in a sequence of kinds. -/
def noConsecutiveWrites : List StmtKind → Bool
  | a :: b :: rest => !(a == .write && b == .write) && noConsecutiveWrites (b :: rest)
  | _ => true

/-- The alternation condition of the specification on a sequence of reads and writes: it is
non-empty, starts with a read, ends with a read, and has no two consecutive writes. -/
def alternates (ks : List StmtKind) : Bool :=
  !ks.isEmpty && ks.head? == some .read && ks.getLast? == some .read && noConsecutiveWrites ks

/-- The walk state as an automaton over statement kinds, started with `FoundUsage = fu` and
`UnusedInAssign = false`: the result is `true` when no write comes without a usage found and
the sequence ends with a usage found. -/
def accept : Bool → List StmtKind → Bool
  | fu, [] => fu
  | fu, .neutral :: ks => accept fu ks
  | _, .read :: ks => accept true ks
  | fu, .write :: ks => fu && accept false ks

/-! ## The test functions of `unused-ntd-object.cpp` as trees

Each block is the body of one test function, statement by statement.  Declaration statements,
literals, casts, member accesses, calls and returns are generic nodes. -/

namespace Tests

/-- A declaration statement `absl::Status name;`: the declared variable's initialiser (a
constructor call without arguments) is its only child. -/
def DeclStmt : Stmt := .Other [some (.Other [])]

/-- The member call `name.ok()`: a call whose callee is a member access on the reference. -/
def okCall (name : String) : Stmt := .CallExpr (.Other [some (.DeclRefExpr (some name))]) []

/-- The expression `absl::Status()`: a temporary built by a constructor call. -/
def makeStatus : Stmt := .Other [some (.Other [])]

/-- A call `f(name)` passing the variable by value: the callee is a cast of the reference to
`f`, the argument a copy construction from the reference. -/
def callWith (f name : String) : Stmt :=
  .CallExpr (.Other [some (.DeclRefExpr (some f))])
    [.Other [some (.Other [some (.DeclRefExpr (some name))])]]

/-- Body of `simple_used_value`: `absl::Status status; return status.ok();`. -/
def simple_used_value : List Stmt :=
  [DeclStmt, .Other [some (okCall "status")]]

/-- Body of `if_used_value`:
`absl::Status status; if (status.ok()) { return true; } return false;`. -/
def if_used_value : List Stmt :=
  [DeclStmt,
   .Other [some (okCall "status"), some (.Other [some (.Other [some (.Other [])])])],
   .Other [some (.Other [])]]

/-- Body of `used_by_function`: `absl::Status status; accepts_status(status);`. -/
def used_by_function : List Stmt :=
  [DeclStmt, callWith "accepts_status" "status"]

/-- Body of `used_assign_lhs`: `absl::Status for_ref; accepts_status_returns_ref(for_ref) = 7;
absl::Status for_ptr; *accepts_status_returns_ptr(for_ptr) = 42;`. -/
def used_assign_lhs : List Stmt :=
  [DeclStmt,
   .BinaryOperator true (callWith "accepts_status_returns_ref" "for_ref") (.Other []),
   DeclStmt,
   .BinaryOperator true
     (.UnaryOperator (callWith "accepts_status_returns_ptr" "for_ptr")) (.Other [])]

/-- Body of `unused_simple`: `absl::Status unused;`. -/
def unused_simple : List Stmt := [DeclStmt]

/-- The statement `unused = absl::Status();`: a call of the class's assignment operator with
the reference and the temporary as its two arguments. -/
def reassign : Stmt :=
  .CXXOperatorCallExpr true [.DeclRefExpr (some "unused"), .Other [some makeStatus]]

/-- Body of `unused_reassigned`: `absl::Status unused; unused = absl::Status();`. -/
def unused_reassigned : List Stmt := [DeclStmt, reassign]

/-- Body of `unused_checked_reassigned`:
`absl::Status unused; if (!unused.ok()) { return; } unused = absl::Status();`. -/
def unused_checked_reassigned : List Stmt :=
  [DeclStmt,
   .Other [some (.UnaryOperator (okCall "unused")), some (.Other [some (.Other [])])],
   reassign]

end Tests

/-- A flat block: declaration, read, write, read (`s.ok(); s = absl::Status(); s.ok();`). -/
def Tests.read_write_read : List Stmt :=
  [Tests.DeclStmt, Tests.okCall "unused", Tests.reassign, Tests.okCall "unused"]

/-- Body of `void f() { absl::Status status; Sink sink; sink = status; }` with
`struct Sink { void operator=(absl::Status &); };`: the right operand of the overloaded
assignment binds to a reference, so it is the bare `DeclRefExpr`. -/
def Tests.read_by_assignment : List Stmt :=
  [Tests.DeclStmt, Tests.DeclStmt,
   .CXXOperatorCallExpr true [.DeclRefExpr (some "sink"), .DeclRefExpr (some "status")]]

/-- Body of `void f() { absl::Status status; Sink sink; sink = status = absl::Status(); }`
with `struct Sink { void operator=(absl::Status &); };`: the inner assignment is the right
operand of the outer one, without a cast in between. -/
def Tests.chained_assignment : List Stmt :=
  [Tests.DeclStmt, Tests.DeclStmt,
   .CXXOperatorCallExpr true
     [.DeclRefExpr (some "sink"),
      .CXXOperatorCallExpr true [.DeclRefExpr (some "status"), .Other [some Tests.makeStatus]]]]

/-- The declaration `absl::Status name;` at a source location. -/
def Tests.statusVar (name : String) (loc : Nat) : DeclaredVar :=
  { Var := { hasUnusedAttr := false, Identifier := some name, Location := loc },
    isLocalVarDecl := true, TypeName := some "::absl::Status", isDecomposition := false,
    Init := some (.Other []) }

/-- Body of `void f() { { absl::Status status; } { absl::Status status; status.ok(); } }`:
two sibling blocks, each declaring a `status`; only the second reads it. -/
def Tests.sibling_blocks : BodyStmt :=
  .CompoundStmt
    [.CompoundStmt [.DeclStmt [Tests.statusVar "status" 1]],
     .CompoundStmt [.DeclStmt [Tests.statusVar "status" 2], .Expr (Tests.okCall "status")]]

/-- Body of `void f() { absl::Status a, b; a.ok(); }`: one declaration statement with two
variables of the checked type; `b` is never read. -/
def Tests.two_declarators : BodyStmt :=
  .CompoundStmt
    [.DeclStmt [Tests.statusVar "a" 1, Tests.statusVar "b" 2], .Expr (Tests.okCall "a")]

/-! ## Structure of the tree -/

namespace Stmt

theorem size_le_sizeChildren {c : Stmt} {cs : List (Option Stmt)} (h : some c ∈ cs) :
    c.size ≤ sizeChildren cs := by
  induction cs with
  | nil => simp at h
  | cons d ds ih =>
    rcases List.mem_cons.mp h with h1 | h1
    · subst h1
      simp only [sizeChildren, sizeOpt]
      omega
    · have := ih h1
      simp only [sizeChildren]
      omega

theorem size_lt_of_mem_children {s c : Stmt} (h : some c ∈ s.children) : c.size < s.size := by
  have := size_le_sizeChildren h
  rw [size_eq s]
  omega

/-- Induction over the tree through `children`: a property holds of every node when it holds
of a node as soon as it holds of all its (non-null) children. -/
theorem children_induction {P : Stmt → Prop}
    (h : ∀ s, (∀ c, some c ∈ s.children → P c) → P s) : ∀ s, P s := by
  have key : ∀ n, ∀ s : Stmt, s.size ≤ n → P s := by
    intro n
    induction n with
    | zero =>
      intro s hs
      have := size_eq s
      omega
    | succ n ih =>
      intro s hs
      apply h
      intro c hc
      apply ih
      have := size_lt_of_mem_children hc
      omega
  intro s
  exact key s.size s (Nat.le_refl _)

theorem subnodesChildren_map_some (args : List Stmt) :
    subnodesChildren (args.map some) = subnodesArgs args := by
  induction args with
  | nil => simp [subnodesChildren, subnodesArgs]
  | cons a as ih => simp [subnodesChildren, subnodesArgs, subnodesOpt, ih]

theorem subnodes_eq (s : Stmt) : s.subnodes = s :: subnodesChildren s.children := by
  cases s <;>
    simp [subnodes, children, subnodesChildren, subnodesOpt, subnodesChildren_map_some]

theorem mem_subnodesChildren {n : Stmt} {cs : List (Option Stmt)} :
    n ∈ subnodesChildren cs ↔ ∃ c, some c ∈ cs ∧ n ∈ c.subnodes := by
  induction cs with
  | nil => simp [subnodesChildren]
  | cons d ds ih =>
    cases d with
    | none =>
      simp only [subnodesChildren, subnodesOpt, List.nil_append, ih, List.mem_cons]
      constructor
      · rintro ⟨c, hc, hn⟩
        exact ⟨c, Or.inr hc, hn⟩
      · rintro ⟨c, hc | hc, hn⟩
        · cases hc
        · exact ⟨c, hc, hn⟩
    | some d =>
      simp only [subnodesChildren, subnodesOpt, List.mem_append, ih, List.mem_cons]
      constructor
      · rintro (h | ⟨c, hc, hn⟩)
        · exact ⟨d, Or.inl rfl, h⟩
        · exact ⟨c, Or.inr hc, hn⟩
      · rintro ⟨c, hc | hc, hn⟩
        · cases hc
          exact Or.inl hn
        · exact Or.inr ⟨c, hc, hn⟩

theorem mem_subnodes {n s : Stmt} :
    n ∈ s.subnodes ↔ n = s ∨ ∃ c, some c ∈ s.children ∧ n ∈ c.subnodes := by
  rw [subnodes_eq, List.mem_cons, mem_subnodesChildren]

theorem self_mem_subnodes (s : Stmt) : s ∈ s.subnodes :=
  mem_subnodes.mpr (Or.inl rfl)

theorem subnodes_of_child {n c s : Stmt} (hc : some c ∈ s.children) (hn : n ∈ c.subnodes) :
    n ∈ s.subnodes :=
  mem_subnodes.mpr (Or.inr ⟨c, hc, hn⟩)

theorem asAssignment_children {s l r : Stmt} (h : s.asAssignment = some (l, r)) :
    s.children = [some l, some r] := by
  cases s with
  | DeclRefExpr i => simp [asAssignment] at h
  | Other cs => simp [asAssignment] at h
  | BinaryOperator b x y =>
    cases b with
    | false => simp [asAssignment] at h
    | true =>
      simp only [asAssignment, Option.some.injEq, Prod.mk.injEq] at h
      obtain ⟨rfl, rfl⟩ := h
      rfl
  | CXXOperatorCallExpr b args =>
    cases b with
    | false => simp [asAssignment] at h
    | true =>
      match args, h with
      | [x, y], h =>
        simp only [asAssignment, Option.some.injEq, Prod.mk.injEq] at h
        obtain ⟨rfl, rfl⟩ := h
        rfl

theorem asAssignment_lhs_mem {s l r : Stmt} (h : s.asAssignment = some (l, r)) :
    some l ∈ s.children := by
  simp [asAssignment_children h]

theorem asAssignment_rhs_mem {s l r : Stmt} (h : s.asAssignment = some (l, r)) :
    some r ∈ s.children := by
  simp [asAssignment_children h]

theorem refersTo_isDeclRefExpr {v : String} {s : Stmt} (h : refersTo v s = true) :
    isDeclRefExpr s = true := by
  cases s <;> simp_all [refersTo, isDeclRefExpr]

theorem refersTo_eq {v : String} {s : Stmt} (h : refersTo v s = true) :
    s = DeclRefExpr (some v) := by
  cases s <;> simp_all [refersTo]

theorem isDeclRefExpr_children {s : Stmt} (h : isDeclRefExpr s = true) : s.children = [] := by
  cases s <;> simp_all [isDeclRefExpr, children]

theorem isDeclRefExpr_asAssignment {s : Stmt} (h : isDeclRefExpr s = true) :
    s.asAssignment = none := by
  cases s <;> simp_all [isDeclRefExpr, asAssignment]

/-- A predicate that holds of no node of a subtree holds of no node of a child's subtree. -/
theorem any_subnodes_child {p : Stmt → Bool} {s c : Stmt}
    (h : s.subnodes.any p = false) (hc : some c ∈ s.children) :
    c.subnodes.any p = false := by
  rw [List.any_eq_false] at h ⊢
  intro n hn
  exact h n (subnodes_of_child hc hn)

theorem any_subnodes_self {p : Stmt → Bool} {s : Stmt}
    (h : s.subnodes.any p = false) : p s = false := by
  rw [List.any_eq_false] at h
  simpa using h s (self_mem_subnodes s)

theorem any_subnodes_mem {p : Stmt → Bool} {s n : Stmt}
    (h : s.subnodes.any p = false) (hn : n ∈ s.subnodes) : n.subnodes.any p = false := by
  revert h hn
  induction s using children_induction with
  | h s ih =>
    intro h hn
    rcases mem_subnodes.mp hn with rfl | ⟨c, hc, hn1⟩
    · exact h
    · exact ih c hc (any_subnodes_child h hc) hn1

end Stmt

/-! ## Unfolding the walker -/

namespace UnusedVariableVisitor

theorem TraverseStmt_none (v : String) (V : UnusedVariableVisitor) :
    TraverseStmt v none V = (true, V) := by
  rw [TraverseStmt]

theorem base_some (v : String) (s : Stmt) (V : UnusedVariableVisitor) :
    RecursiveASTVisitor.TraverseStmt v (some s) V
      = RecursiveASTVisitor.TraverseChildren v s.children V := by
  rw [RecursiveASTVisitor.TraverseStmt]

theorem TraverseChildren_nil (v : String) (V : UnusedVariableVisitor) :
    RecursiveASTVisitor.TraverseChildren v [] V = (true, V) := by
  rw [RecursiveASTVisitor.TraverseChildren]

theorem TraverseChildren_cons (v : String) (c : Option Stmt) (cs : List (Option Stmt))
    (V : UnusedVariableVisitor) :
    RecursiveASTVisitor.TraverseChildren v (c :: cs) V
      = if (TraverseStmt v c V).1 = true
        then RecursiveASTVisitor.TraverseChildren v cs (TraverseStmt v c V).2
        else (false, (TraverseStmt v c V).2) := by
  rw [RecursiveASTVisitor.TraverseChildren]
  rcases h : TraverseStmt v c V with ⟨b, V1⟩
  cases b <;> simp

/-- The assignment handler in terms of the node predicates. -/
theorem ProcessAssignmentOperator_eq (v : String) (l r : Stmt) (V : UnusedVariableVisitor) :
    ProcessAssignmentOperator v l r V
      = if isDeclRefExpr l = true then
          if refersTo v l = true then
            if V.FoundUsage = true then
              (some true, (RecursiveASTVisitor.TraverseChildren v r.children
                { V with FoundUsage := false }).2)
            else (some false, { V with UnusedInAssign := true })
          else (some true, (RecursiveASTVisitor.TraverseChildren v r.children V).2)
        else (none, V) := by
  cases l with
  | DeclRefExpr i =>
    rw [ProcessAssignmentOperator]
    by_cases hi : i = some v <;> cases hf : V.FoundUsage <;>
      simp [isDeclRefExpr, refersTo, hi, hf, base_some]
  | BinaryOperator b x y => rw [ProcessAssignmentOperator] <;> simp [isDeclRefExpr]
  | CXXOperatorCallExpr b args => rw [ProcessAssignmentOperator] <;> simp [isDeclRefExpr]
  | Other cs => rw [ProcessAssignmentOperator] <;> simp [isDeclRefExpr]

/-- The walker on an assignment node. -/
theorem TraverseStmt_assign (v : String) {s l r : Stmt} (h : s.asAssignment = some (l, r))
    (V : UnusedVariableVisitor) :
    TraverseStmt v (some s) V
      = match ProcessAssignmentOperator v l r V with
        | (some b, V1) => (b, V1)
        | (none, V1) => (true, (RecursiveASTVisitor.TraverseChildren v s.children V1).2) := by
  cases s with
  | DeclRefExpr i => simp [asAssignment] at h
  | Other cs => simp [asAssignment] at h
  | BinaryOperator b x y =>
    cases b with
    | false => simp [asAssignment] at h
    | true =>
      simp only [asAssignment, Option.some.injEq, Prod.mk.injEq] at h
      obtain ⟨rfl, rfl⟩ := h
      rw [TraverseStmt]
      rcases ProcessAssignmentOperator v x y V with ⟨o, V1⟩
      cases o <;> simp [base_some]
  | CXXOperatorCallExpr b args =>
    cases b with
    | false => simp [asAssignment] at h
    | true =>
      match args, h with
      | [x, y], h =>
        simp only [asAssignment, Option.some.injEq, Prod.mk.injEq] at h
        obtain ⟨rfl, rfl⟩ := h
        rw [TraverseStmt]
        rcases ProcessAssignmentOperator v x y V with ⟨o, V1⟩
        cases o <;> simp [base_some]

/-- The walker on a node that is not an assignment. -/
theorem TraverseStmt_generic (v : String) {s : Stmt} (h : s.asAssignment = none)
    (V : UnusedVariableVisitor) :
    TraverseStmt v (some s) V
      = (true, (RecursiveASTVisitor.TraverseChildren v s.children
          (if refersTo v s = true then { V with FoundUsage := true } else V)).2) := by
  cases s with
  | DeclRefExpr i =>
    rw [TraverseStmt, base_some]
    by_cases hi : i = some v <;> simp [refersTo, hi]
  | Other cs =>
    rw [TraverseStmt, base_some]
    · simp [refersTo]
    all_goals intros; simp_all
  | BinaryOperator b x y =>
    cases b with
    | true => simp [asAssignment] at h
    | false =>
      rw [TraverseStmt, base_some]
      · simp [refersTo]
      all_goals intros; simp_all
  | CXXOperatorCallExpr b args =>
    rw [TraverseStmt, base_some]
    · simp [refersTo]
    · intros; simp_all
    · intro LHS RHS heq
      simp only [CXXOperatorCallExpr.injEq] at heq
      obtain ⟨rfl, rfl⟩ := heq
      simp [asAssignment] at h
    · intros; simp_all

end UnusedVariableVisitor

namespace UnusedVariableVisitor

theorem skips_none (v : String) : Skips (TraverseStmt v none) :=
  fun V => TraverseStmt_none v V

theorem latches_none (v : String) : Latches (TraverseStmt v none) := by
  intro V
  simp [TraverseStmt_none]

theorem onlyReads_none (v : String) : OnlyReads (TraverseStmt v none) := by
  intro V
  simp [TraverseStmt_none]

theorem skips_children (v : String) (cs : List (Option Stmt))
    (h : ∀ c, some c ∈ cs → Skips (TraverseStmt v (some c))) :
    Skips (RecursiveASTVisitor.TraverseChildren v cs) := by
  induction cs with
  | nil => exact fun V => TraverseChildren_nil v V
  | cons d ds ih =>
    intro V
    have hd : TraverseStmt v d V = (true, V) := by
      cases d with
      | none => exact TraverseStmt_none v V
      | some c => exact h c (List.mem_cons_self _ _) V
    rw [TraverseChildren_cons, hd]
    simpa using ih (fun c hc => h c (List.mem_cons_of_mem _ hc)) V

theorem latches_children (v : String) (cs : List (Option Stmt))
    (h : ∀ c, some c ∈ cs → Latches (TraverseStmt v (some c))) :
    Latches (RecursiveASTVisitor.TraverseChildren v cs) := by
  induction cs with
  | nil =>
    intro V
    simp [TraverseChildren_nil]
  | cons d ds ih =>
    intro V
    have hd : Latches (TraverseStmt v d) := by
      cases d with
      | none => exact latches_none v
      | some c => exact h c (List.mem_cons_self _ _)
    have ht := ih (fun c hc => h c (List.mem_cons_of_mem _ hc)) (TraverseStmt v d V).2
    rw [TraverseChildren_cons]
    by_cases hb : (TraverseStmt v d V).1 = true
    · rw [if_pos hb]
      exact ⟨fun hV => ht.1 ((hd V).1 hV), ht.2⟩
    · rw [if_neg hb]
      have hb1 : (TraverseStmt v d V).1 = false := by simpa using hb
      exact ⟨fun hV => (hd V).1 hV, fun _ => (hd V).2 hb1⟩

theorem onlyReads_children (v : String) (cs : List (Option Stmt))
    (h : ∀ c, some c ∈ cs → OnlyReads (TraverseStmt v (some c))) :
    OnlyReads (RecursiveASTVisitor.TraverseChildren v cs) := by
  induction cs with
  | nil =>
    intro V
    simp [TraverseChildren_nil]
  | cons d ds ih =>
    intro V
    have hd : OnlyReads (TraverseStmt v d) := by
      cases d with
      | none => exact onlyReads_none v
      | some c => exact h c (List.mem_cons_self _ _)
    have ht := ih (fun c hc => h c (List.mem_cons_of_mem _ hc)) (TraverseStmt v d V).2
    rw [TraverseChildren_cons, if_pos (hd V).1]
    exact ⟨ht.1, ht.2.1.trans (hd V).2.1, fun hV => ht.2.2 ((hd V).2.2 hV)⟩

theorem findsUsage_children (v : String) (cs : List (Option Stmt))
    (h : ∀ c, some c ∈ cs → OnlyReads (TraverseStmt v (some c)))
    (hex : ∃ c, some c ∈ cs ∧ FindsUsage (TraverseStmt v (some c))) :
    FindsUsage (RecursiveASTVisitor.TraverseChildren v cs) := by
  induction cs with
  | nil =>
    obtain ⟨c, hc, _⟩ := hex
    simp at hc
  | cons d ds ih =>
    intro V
    have hd : OnlyReads (TraverseStmt v d) := by
      cases d with
      | none => exact onlyReads_none v
      | some c => exact h c (List.mem_cons_self _ _)
    have hds : ∀ c, some c ∈ ds → OnlyReads (TraverseStmt v (some c)) :=
      fun c hc => h c (List.mem_cons_of_mem _ hc)
    rw [TraverseChildren_cons, if_pos (hd V).1]
    obtain ⟨c, hc, hf⟩ := hex
    rcases List.mem_cons.mp hc with h1 | h1
    · subst h1
      exact (onlyReads_children v ds hds (TraverseStmt v (some c) V).2).2.2 (hf V)
    · exact ih hds ⟨c, h1, hf⟩ (TraverseStmt v d V).2

/-- Running the child loop over a concatenation: the second part runs from where the first
ended, unless the first returned `false`. -/
theorem TraverseChildren_append (v : String) (as bs : List (Option Stmt))
    (V : UnusedVariableVisitor) :
    RecursiveASTVisitor.TraverseChildren v (as ++ bs) V
      = if (RecursiveASTVisitor.TraverseChildren v as V).1 = true
        then RecursiveASTVisitor.TraverseChildren v bs
          (RecursiveASTVisitor.TraverseChildren v as V).2
        else (false, (RecursiveASTVisitor.TraverseChildren v as V).2) := by
  induction as generalizing V with
  | nil => simp [TraverseChildren_nil]
  | cons d ds ih =>
    rw [List.cons_append, TraverseChildren_cons, TraverseChildren_cons]
    by_cases hb : (TraverseStmt v d V).1 = true
    · simp only [if_pos hb]
      exact ih _
    · simp [if_neg hb]

end UnusedVariableVisitor

/-! ## The walker on whole subtrees -/

namespace UnusedVariableVisitor

/-- On every node, the walker and the child loop over the node's children keep
`UnusedInAssign` once it is set, and return `false` only with it set. -/
theorem latches_node (v : String) (s : Stmt) :
    Latches (TraverseStmt v (some s)) ∧
      Latches (RecursiveASTVisitor.TraverseChildren v s.children) := by
  induction s using Stmt.children_induction with
  | h s ih =>
    have hcs : Latches (RecursiveASTVisitor.TraverseChildren v s.children) :=
      latches_children v s.children (fun c hc => (ih c hc).1)
    refine ⟨?_, hcs⟩
    intro V
    cases ha : s.asAssignment with
    | none =>
      rw [TraverseStmt_generic v ha]
      refine ⟨fun hV => ?_, fun hf => by simp at hf⟩
      apply (hcs _).1
      split <;> simpa using hV
    | some lr =>
      obtain ⟨l, r⟩ := lr
      have hr := (ih r (asAssignment_rhs_mem ha)).2
      rw [TraverseStmt_assign v ha, ProcessAssignmentOperator_eq]
      by_cases h1 : isDeclRefExpr l = true
      · by_cases h2 : refersTo v l = true
        · by_cases h3 : V.FoundUsage = true
          · simp only [h1, h2, h3, if_true]
            exact ⟨fun hV => (hr _).1 (by simpa using hV), fun hf => by simp at hf⟩
          · simp [h1, h2, h3]
        · simp only [h1, h2, if_true]
          exact ⟨fun hV => (hr _).1 hV, fun hf => by simp at hf⟩
      · simp only [h1]
        exact ⟨fun hV => (hcs _).1 hV, fun hf => by simp at hf⟩

theorem latches_TraverseStmt (v : String) (S : Option Stmt) : Latches (TraverseStmt v S) := by
  cases S with
  | none => exact latches_none v
  | some s => exact (latches_node v s).1

theorem latches_TraverseChildren (v : String) (cs : List (Option Stmt)) :
    Latches (RecursiveASTVisitor.TraverseChildren v cs) :=
  latches_children v cs (fun c _ => (latches_node v c).1)

/-- Frame: on a subtree without a reference to the tracked identifier, the walker and the
child loop over the root's children change nothing and return `true`. -/
theorem skips_node (v : String) (s : Stmt) (hm : s.mentions v = false) :
    Skips (TraverseStmt v (some s)) ∧
      Skips (RecursiveASTVisitor.TraverseChildren v s.children) := by
  induction s using Stmt.children_induction with
  | h s ih =>
    have hchild : ∀ c, some c ∈ s.children → c.mentions v = false :=
      fun c hc => any_subnodes_child hm hc
    have hself : refersTo v s = false := any_subnodes_self hm
    have hcs : Skips (RecursiveASTVisitor.TraverseChildren v s.children) :=
      skips_children v s.children (fun c hc => (ih c hc (hchild c hc)).1)
    refine ⟨?_, hcs⟩
    intro V
    cases ha : s.asAssignment with
    | none =>
      rw [TraverseStmt_generic v ha]
      simp [hself, hcs V]
    | some lr =>
      obtain ⟨l, r⟩ := lr
      have hr := (ih r (asAssignment_rhs_mem ha) (hchild r (asAssignment_rhs_mem ha))).2
      have hl : refersTo v l = false :=
        any_subnodes_self (hchild l (asAssignment_lhs_mem ha))
      rw [TraverseStmt_assign v ha, ProcessAssignmentOperator_eq]
      by_cases h1 : isDeclRefExpr l = true
      · simp [h1, hl, hr V]
      · simp [h1, hcs V]

/-- On a subtree without a write of the tracked identifier, the walker and the child loop
over the root's children return `true`, leave `UnusedInAssign` unchanged and never clear
`FoundUsage`. -/
theorem onlyReads_node (v : String) (s : Stmt) (hw : s.hasWrite v = false) :
    OnlyReads (TraverseStmt v (some s)) ∧
      OnlyReads (RecursiveASTVisitor.TraverseChildren v s.children) := by
  induction s using Stmt.children_induction with
  | h s ih =>
    have hchild : ∀ c, some c ∈ s.children → c.hasWrite v = false :=
      fun c hc => any_subnodes_child hw hc
    have hself : isWrite v s = false := any_subnodes_self hw
    have hcs : OnlyReads (RecursiveASTVisitor.TraverseChildren v s.children) :=
      onlyReads_children v s.children (fun c hc => (ih c hc (hchild c hc)).1)
    refine ⟨?_, hcs⟩
    intro V
    cases ha : s.asAssignment with
    | none =>
      rw [TraverseStmt_generic v ha]
      by_cases h0 : refersTo v s = true
      · rw [if_pos h0]
        have := hcs { V with FoundUsage := true }
        exact ⟨rfl, this.2.1, fun _ => this.2.2 rfl⟩
      · rw [if_neg h0]
        exact ⟨rfl, (hcs V).2.1, (hcs V).2.2⟩
    | some lr =>
      obtain ⟨l, r⟩ := lr
      have hr := (ih r (asAssignment_rhs_mem ha) (hchild r (asAssignment_rhs_mem ha))).2
      have hl : refersTo v l = false := by
        simpa [isWrite, ha] using hself
      rw [TraverseStmt_assign v ha, ProcessAssignmentOperator_eq]
      by_cases h1 : isDeclRefExpr l = true
      · rw [if_pos h1, if_neg (by simp [hl])]
        exact ⟨rfl, (hr V).2.1, (hr V).2.2⟩
      · rw [if_neg h1]
        exact ⟨rfl, (hcs V).2.1, (hcs V).2.2⟩

theorem hasWrite_of_hasAssignment {v : String} {s : Stmt} (h : s.hasAssignment = false) :
    s.hasWrite v = false := by
  unfold hasWrite
  unfold hasAssignment at h
  rw [List.any_eq_false] at h ⊢
  intro n hn
  have := h n hn
  cases hn1 : n.asAssignment with
  | none => simp [isWrite, hn1]
  | some lr => simp [hn1] at this

/-- On a subtree without an assignment node that contains a reference to the tracked
identifier, the walker ends with `FoundUsage` set. -/
theorem findsUsage_node (v : String) (s : Stmt) (ha : s.hasAssignment = false)
    (hm : s.mentions v = true) : FindsUsage (TraverseStmt v (some s)) := by
  induction s using Stmt.children_induction with
  | h s ih =>
    have hchild : ∀ c, some c ∈ s.children → c.hasAssignment = false :=
      fun c hc => any_subnodes_child ha hc
    have hreads : ∀ c, some c ∈ s.children → OnlyReads (TraverseStmt v (some c)) :=
      fun c hc => (onlyReads_node v c (hasWrite_of_hasAssignment (hchild c hc))).1
    have hself : s.asAssignment = none := by
      have := any_subnodes_self ha
      simpa using this
    intro V
    rw [TraverseStmt_generic v hself]
    by_cases h0 : refersTo v s = true
    · simp only [h0, if_true]
      exact (onlyReads_children v s.children hreads { V with FoundUsage := true }).2.2 rfl
    · have hm1 : ∃ n, n ∈ s.subnodes ∧ refersTo v n = true := by
        simpa [mentions, List.any_eq_true] using hm
      obtain ⟨n, hn, hnr⟩ := hm1
      rcases mem_subnodes.mp hn with rfl | ⟨c, hc, hnc⟩
      · exact absurd hnr h0
      · have hcm : c.mentions v = true := by
          simp only [mentions, List.any_eq_true]
          exact ⟨n, hnc, hnr⟩
        exact findsUsage_children v s.children hreads ⟨c, hc, ih c hc (hchild c hc) hcm⟩ _

/-- The block traversal as the child loop over the statements. -/
theorem verdict_eq (v : String) (body : List Stmt) :
    verdict v body
      = (RecursiveASTVisitor.TraverseChildren v (body.map some) {}).2.IsUnused := rfl

theorem mem_map_some {c : Stmt} {body : List Stmt} (h : some c ∈ body.map some) : c ∈ body := by
  simpa using h

end UnusedVariableVisitor

/-! ## Lemmas for the claims -/

namespace UnusedVariableVisitor

/-- The walker on a write of the tracked identifier: with a usage found, `FoundUsage` is reset
and the children of the right operand are traversed; without, `UnusedInAssign` is set and the
result is `false`. -/
theorem TraverseStmt_write (v : String) {s l r : Stmt} (ha : s.asAssignment = some (l, r))
    (hl : refersTo v l = true) (V : UnusedVariableVisitor) :
    TraverseStmt v (some s) V
      = if V.FoundUsage = true then
          (true, (RecursiveASTVisitor.TraverseChildren v r.children
            { V with FoundUsage := false }).2)
        else (false, { V with UnusedInAssign := true }) := by
  rw [TraverseStmt_assign v ha, ProcessAssignmentOperator_eq,
    if_pos (refersTo_isDeclRefExpr hl), if_pos hl]
  by_cases h : V.FoundUsage = true
  · rw [if_pos h, if_pos h]
  · rw [if_neg h, if_neg h]

/-- The child loop over the statements of a block none of which mentions the tracked
identifier changes nothing. -/
theorem skips_block (v : String) (body : List Stmt) (h : ∀ s ∈ body, s.mentions v = false) :
    Skips (RecursiveASTVisitor.TraverseChildren v (body.map some)) :=
  skips_children v _ (fun c hc => (skips_node v c (h c (mem_map_some hc))).1)

end UnusedVariableVisitor

theorem accept_filter (fu : Bool) (ks : List StmtKind) :
    accept fu (ks.filter (fun k => k != .neutral)) = accept fu ks := by
  induction ks generalizing fu with
  | nil => rfl
  | cons k ks ih =>
    cases k <;> simp [accept, ih, List.filter_cons]

theorem accept_eq (l : List StmtKind) (hl : ∀ k ∈ l, k ≠ StmtKind.neutral) (fu : Bool) :
    accept fu l = ((fu || l.head? == some .read)
      && (match l.getLast? with | none => fu | some k => k == .read)
      && noConsecutiveWrites l) := by
  induction l generalizing fu with
  | nil => simp [accept, noConsecutiveWrites]
  | cons k t ih =>
    have ht : ∀ k ∈ t, k ≠ StmtKind.neutral := fun k hk => hl k (List.mem_cons_of_mem _ hk)
    have hk : k ≠ StmtKind.neutral := hl k (List.mem_cons_self _ _)
    cases t with
    | nil => cases k <;> cases fu <;> simp_all [accept, noConsecutiveWrites]
    | cons b t =>
      have hb : b ≠ StmtKind.neutral := ht b (List.mem_cons_self _ _)
      have e1 := ih ht true
      have e2 := ih ht false
      obtain ⟨z, hz⟩ : ∃ z, (b :: t).getLast? = some z :=
        ⟨(b :: t).getLast (by simp), List.getLast?_eq_getLast _ (by simp)⟩
      rw [List.getLast?_cons_cons, hz]
      rw [hz] at e1 e2
      have r1 : (StmtKind.read == StmtKind.write) = false := by decide
      have r2 : (StmtKind.write == StmtKind.read) = false := by decide
      cases k with
      | neutral => exact absurd rfl hk
      | read =>
        simp only [accept, e1]
        simp [noConsecutiveWrites, r1]
      | write =>
        simp only [accept, e2]
        cases b with
        | neutral => exact absurd rfl hb
        | read => cases fu <;> simp [noConsecutiveWrites, r1]
        | write => cases fu <;> simp [noConsecutiveWrites, r2]

theorem alternates_eq (l : List StmtKind) (hl : ∀ k ∈ l, k ≠ StmtKind.neutral) :
    alternates l = accept false l := by
  rw [accept_eq l hl]
  cases l with
  | nil => simp [alternates]
  | cons k t =>
    simp [alternates]
    cases h : (k :: t).getLast? with
    | none => simp at h
    | some a => simp

namespace UnusedVariableVisitor

theorem classify_neutral {v : String} {s : Stmt} (h : classify v s = some .neutral) :
    s.mentions v = false := by
  unfold classify at h
  by_cases ha : s.hasAssignment = false
  · rw [if_pos ha] at h
    by_cases hm : s.mentions v = true
    · simp [hm] at h
    · simpa using hm
  · rw [if_neg ha] at h
    split at h
    · split at h <;> simp at h
    · simp at h

theorem classify_read {v : String} {s : Stmt} (h : classify v s = some .read) :
    s.hasAssignment = false ∧ s.mentions v = true := by
  unfold classify at h
  by_cases ha : s.hasAssignment = false
  · rw [if_pos ha] at h
    by_cases hm : s.mentions v = true
    · exact ⟨ha, hm⟩
    · simp [hm] at h
  · rw [if_neg ha] at h
    split at h
    · split at h <;> simp at h
    · simp at h

theorem classify_write {v : String} {s : Stmt} (h : classify v s = some .write) :
    ∃ l r, s.asAssignment = some (l, r) ∧ refersTo v l = true ∧ r.mentions v = false := by
  unfold classify at h
  by_cases ha : s.hasAssignment = false
  · rw [if_pos ha] at h
    by_cases hm : s.mentions v = true <;> simp [hm] at h
  · rw [if_neg ha] at h
    split at h
    · rename_i l r hlr
      by_cases hc : (refersTo v l && !r.mentions v && !r.hasAssignment) = true
      · simp only [Bool.and_eq_true, Bool.not_eq_true', Bool.not_eq_eq_eq_not] at hc
        exact ⟨l, r, hlr, hc.1.1, by simpa using hc.1.2⟩
      · simp [hc] at h
    · simp at h

/-- The walk of a flat block from a state without `UnusedInAssign` follows the automaton. -/
theorem flat_block_run (v : String) (body : List Stmt)
    (h : ∀ s ∈ body, (classify v s).isSome = true) (fu : Bool) :
    (RecursiveASTVisitor.TraverseChildren v (body.map some)
        { FoundUsage := fu, UnusedInAssign := false }).2.IsUnused
      = !accept fu (body.filterMap (classify v)) := by
  induction body generalizing fu with
  | nil => simp [TraverseChildren_nil, IsUnused, accept]
  | cons s rest ih =>
    have hrest : ∀ s ∈ rest, (classify v s).isSome = true :=
      fun s hs => h s (List.mem_cons_of_mem _ hs)
    obtain ⟨k, hk⟩ := Option.isSome_iff_exists.mp (h s (List.mem_cons_self _ _))
    rw [List.map_cons, TraverseChildren_cons, List.filterMap_cons_some hk]
    cases k with
    | neutral =>
      rw [(skips_node v s (classify_neutral hk)).1 _]
      simpa [accept] using ih hrest fu
    | read =>
      obtain ⟨ha, hm⟩ := classify_read hk
      have h1 := (onlyReads_node v s (hasWrite_of_hasAssignment ha)).1
        { FoundUsage := fu, UnusedInAssign := false }
      have h2 := findsUsage_node v s ha hm { FoundUsage := fu, UnusedInAssign := false }
      have e : (TraverseStmt v (some s) { FoundUsage := fu, UnusedInAssign := false }).2
          = { FoundUsage := true, UnusedInAssign := false } := by
        rcases hq : (TraverseStmt v (some s) { FoundUsage := fu, UnusedInAssign := false }).2
          with ⟨a, b⟩
        rw [hq] at h1 h2
        simp_all
      rw [if_pos h1.1, e]
      simpa [accept] using ih hrest true
    | write =>
      obtain ⟨l, r, hlr, hl, hr⟩ := classify_write hk
      rw [TraverseStmt_write v hlr hl]
      cases fu with
      | false => simp [accept, IsUnused]
      | true =>
        simp only [if_true, (skips_node v r hr).2 _]
        simpa [accept] using ih hrest false

end UnusedVariableVisitor

namespace UnusedVariableVisitor

/-- The walker on a bare reference to the tracked identifier finds a usage. -/
theorem findsUsage_ref (v : String) : FindsUsage (TraverseStmt v (some (.DeclRefExpr (some v)))) := by
  intro V
  have h0 : (Stmt.DeclRefExpr (some v)).asAssignment = none := rfl
  rw [TraverseStmt_generic v h0]
  simp [refersTo, Stmt.children, TraverseChildren_nil]

/-- In a subtree without a write of the tracked identifier, a node on which the walker and
the child loop find a usage makes the walker find a usage on the whole subtree. -/
theorem findsUsage_of_subnode (v : String) (A : Stmt)
    (hAT : FindsUsage (TraverseStmt v (some A)))
    (hAC : FindsUsage (RecursiveASTVisitor.TraverseChildren v A.children))
    (s : Stmt) (hw : s.hasWrite v = false) (hA : A ∈ s.subnodes) :
    FindsUsage (TraverseStmt v (some s)) ∧
      FindsUsage (RecursiveASTVisitor.TraverseChildren v s.children) := by
  induction s using Stmt.children_induction with
  | h s ih =>
    rcases mem_subnodes.mp hA with rfl | ⟨c, hc, hAc⟩
    · exact ⟨hAT, hAC⟩
    · have hchild : ∀ c, some c ∈ s.children → c.hasWrite v = false :=
        fun c hc => any_subnodes_child hw hc
      have hreads : ∀ c, some c ∈ s.children → OnlyReads (TraverseStmt v (some c)) :=
        fun c hc => (onlyReads_node v c (hchild c hc)).1
      have hcs : FindsUsage (RecursiveASTVisitor.TraverseChildren v s.children) :=
        findsUsage_children v s.children hreads ⟨c, hc, (ih c hc (hchild c hc) hAc).1⟩
      refine ⟨?_, hcs⟩
      intro V
      cases ha : s.asAssignment with
      | none =>
        rw [TraverseStmt_generic v ha]
        exact hcs _
      | some lr =>
        obtain ⟨l, r⟩ := lr
        have hself : isWrite v s = false := any_subnodes_self hw
        have hl : refersTo v l = false := by
          simpa [isWrite, ha] using hself
        rw [TraverseStmt_assign v ha, ProcessAssignmentOperator_eq]
        by_cases h1 : isDeclRefExpr l = true
        · rw [if_pos h1, if_neg (by simp [hl])]
          have hkids := asAssignment_children ha
          rw [hkids] at hc
          have hcr : c = r := by
            rcases List.mem_cons.mp hc with h2 | h2
            · have h3 : c = l := by simpa using h2
              subst h3
              rcases mem_subnodes.mp hAc with rfl | ⟨d, hd, _⟩
              · have := hAC {}
                rw [isDeclRefExpr_children h1, TraverseChildren_nil] at this
                simp at this
              · rw [isDeclRefExpr_children h1] at hd
                simp at hd
            · simpa using h2
          subst hcr
          exact (ih c (asAssignment_rhs_mem ha) (hchild c (asAssignment_rhs_mem ha)) hAc).2 V
        · rw [if_neg h1]
          exact hcs V

/-- A call with an argument that mentions the tracked identifier and has no assignment node
(the bare reference, or a copy or cast of it), or a unary operator applied to such a call, in
a context without writes: the walker finds a usage. -/
theorem findsUsage_call (v : String) (callee arg : Stmt) (args : List Stmt)
    (harg : arg ∈ args) (hna : arg.hasAssignment = false) (hma : arg.mentions v = true)
    (lhs : Stmt)
    (hlhs : lhs = .CallExpr callee args ∨ lhs = .UnaryOperator (.CallExpr callee args))
    (hw : lhs.hasWrite v = false) : FindsUsage (TraverseStmt v (some lhs)) := by
  have hmem : some arg ∈ (Stmt.CallExpr callee args).children := by
    simp [Stmt.CallExpr, Stmt.children, harg]
  have hcall : ∀ c : Stmt, c = .CallExpr callee args → c.hasWrite v = false →
      FindsUsage (TraverseStmt v (some c)) := by
    intro c hc hcw
    subst hc
    intro V
    have h0 : (Stmt.CallExpr callee args).asAssignment = none := rfl
    rw [TraverseStmt_generic v h0]
    exact findsUsage_children v _
      (fun d hd => (onlyReads_node v d (any_subnodes_child hcw hd)).1)
      ⟨_, hmem, findsUsage_node v arg hna hma⟩ _
  rcases hlhs with rfl | rfl
  · exact hcall _ rfl hw
  · intro V
    have hkid : some (Stmt.CallExpr callee args)
        ∈ (Stmt.UnaryOperator (.CallExpr callee args)).children := by
      simp [Stmt.UnaryOperator, Stmt.children]
    have h0 : (Stmt.UnaryOperator (.CallExpr callee args)).asAssignment = none := rfl
    rw [TraverseStmt_generic v h0]
    exact findsUsage_children v _
      (fun d hd => (onlyReads_node v d (any_subnodes_child hw hd)).1)
      ⟨_, hkid, hcall _ rfl (any_subnodes_child hw hkid)⟩ _

end UnusedVariableVisitor

/-! ## The reference walker -/

namespace ReferenceWalker

open UnusedVariableVisitor

theorem ref_TraverseStmt_none (v : String) (V : UnusedVariableVisitor) :
    ReferenceWalker.TraverseStmt v none V = V := by
  rw [ReferenceWalker.TraverseStmt]

theorem ref_TraverseChildren_nil (v : String) (V : UnusedVariableVisitor) :
    ReferenceWalker.TraverseChildren v [] V = V := by
  rw [ReferenceWalker.TraverseChildren]

theorem ref_TraverseChildren_cons (v : String) (c : Option Stmt) (cs : List (Option Stmt))
    (V : UnusedVariableVisitor) :
    ReferenceWalker.TraverseChildren v (c :: cs) V
      = ReferenceWalker.TraverseChildren v cs (ReferenceWalker.TraverseStmt v c V) := by
  rw [ReferenceWalker.TraverseChildren]

/-- The reference assignment handler in terms of the node predicates. -/
theorem ref_ProcessAssignmentOperator_eq (v : String) (l r : Stmt) (V : UnusedVariableVisitor) :
    ReferenceWalker.ProcessAssignmentOperator v l r V
      = if isDeclRefExpr l = true then
          if refersTo v l = true then
            if V.FoundUsage = true then
              some (ReferenceWalker.TraverseChildren v r.children { V with FoundUsage := false })
            else
              some (ReferenceWalker.TraverseChildren v r.children
                { V with UnusedInAssign := true })
          else some (ReferenceWalker.TraverseChildren v r.children V)
        else none := by
  cases l with
  | DeclRefExpr i =>
    rw [ReferenceWalker.ProcessAssignmentOperator]
    by_cases hi : i = some v <;> cases hf : V.FoundUsage <;>
      simp [isDeclRefExpr, refersTo, hi, hf]
  | BinaryOperator b x y =>
    rw [ReferenceWalker.ProcessAssignmentOperator] <;> simp [isDeclRefExpr]
  | CXXOperatorCallExpr b args =>
    rw [ReferenceWalker.ProcessAssignmentOperator] <;> simp [isDeclRefExpr]
  | Other cs => rw [ReferenceWalker.ProcessAssignmentOperator] <;> simp [isDeclRefExpr]

/-- The reference walker on an assignment node. -/
theorem ref_TraverseStmt_assign (v : String) {s l r : Stmt} (h : s.asAssignment = some (l, r))
    (V : UnusedVariableVisitor) :
    ReferenceWalker.TraverseStmt v (some s) V
      = match ReferenceWalker.ProcessAssignmentOperator v l r V with
        | some V1 => V1
        | none => ReferenceWalker.TraverseChildren v s.children V := by
  cases s with
  | DeclRefExpr i => simp [asAssignment] at h
  | Other cs => simp [asAssignment] at h
  | BinaryOperator b x y =>
    cases b with
    | false => simp [asAssignment] at h
    | true =>
      simp only [asAssignment, Option.some.injEq, Prod.mk.injEq] at h
      obtain ⟨rfl, rfl⟩ := h
      rw [ReferenceWalker.TraverseStmt]
  | CXXOperatorCallExpr b args =>
    cases b with
    | false => simp [asAssignment] at h
    | true =>
      match args, h with
      | [x, y], h =>
        simp only [asAssignment, Option.some.injEq, Prod.mk.injEq] at h
        obtain ⟨rfl, rfl⟩ := h
        rw [ReferenceWalker.TraverseStmt]

/-- The reference walker on a node that is not an assignment. -/
theorem ref_TraverseStmt_generic (v : String) {s : Stmt} (h : s.asAssignment = none)
    (V : UnusedVariableVisitor) :
    ReferenceWalker.TraverseStmt v (some s) V
      = ReferenceWalker.TraverseChildren v s.children
          (if refersTo v s = true then { V with FoundUsage := true } else V) := by
  cases s with
  | DeclRefExpr i =>
    rw [ReferenceWalker.TraverseStmt]
    by_cases hi : i = some v <;> simp [refersTo, hi]
  | Other cs =>
    rw [ReferenceWalker.TraverseStmt]
    · simp [refersTo]
    all_goals intros; simp_all
  | BinaryOperator b x y =>
    cases b with
    | true => simp [asAssignment] at h
    | false =>
      rw [ReferenceWalker.TraverseStmt]
      · simp [refersTo]
      all_goals intros; simp_all
  | CXXOperatorCallExpr b args =>
    rw [ReferenceWalker.TraverseStmt]
    · simp [refersTo]
    · intros; simp_all
    · intro LHS RHS heq
      simp only [CXXOperatorCallExpr.injEq] at heq
      obtain ⟨rfl, rfl⟩ := heq
      simp [asAssignment] at h
    · intros; simp_all

/-- The reference child loop keeps `UnusedInAssign` when every child does. -/
theorem latch_children (v : String) (cs : List (Option Stmt))
    (h : ∀ c, some c ∈ cs → ∀ V : UnusedVariableVisitor, V.UnusedInAssign = true →
      (ReferenceWalker.TraverseStmt v (some c) V).UnusedInAssign = true) :
    ∀ V : UnusedVariableVisitor, V.UnusedInAssign = true →
      (ReferenceWalker.TraverseChildren v cs V).UnusedInAssign = true := by
  induction cs with
  | nil =>
    intro V hV
    rw [ref_TraverseChildren_nil]
    exact hV
  | cons d ds ih =>
    intro V hV
    rw [ref_TraverseChildren_cons]
    apply ih (fun c hc => h c (List.mem_cons_of_mem _ hc))
    cases d with
    | none => rw [ref_TraverseStmt_none]; exact hV
    | some c => exact h c (List.mem_cons_self _ _) V hV

/-- The reference walker never clears `UnusedInAssign`. -/
theorem latch_node (v : String) (s : Stmt) :
    (∀ V : UnusedVariableVisitor, V.UnusedInAssign = true →
        (ReferenceWalker.TraverseStmt v (some s) V).UnusedInAssign = true) ∧
      (∀ V : UnusedVariableVisitor, V.UnusedInAssign = true →
        (ReferenceWalker.TraverseChildren v s.children V).UnusedInAssign = true) := by
  induction s using Stmt.children_induction with
  | h s ih =>
    have hcs := latch_children v s.children (fun c hc => (ih c hc).1)
    refine ⟨?_, hcs⟩
    intro V hV
    cases ha : s.asAssignment with
    | none =>
      rw [ref_TraverseStmt_generic v ha]
      apply hcs
      split <;> simpa using hV
    | some lr =>
      obtain ⟨l, r⟩ := lr
      have hr := (ih r (asAssignment_rhs_mem ha)).2
      rw [ref_TraverseStmt_assign v ha, ref_ProcessAssignmentOperator_eq]
      by_cases h1 : isDeclRefExpr l = true
      · by_cases h2 : refersTo v l = true
        · by_cases h3 : V.FoundUsage = true
          · simp only [h1, h2, h3, if_true]
            exact hr _ (by simpa using hV)
          · simp only [h1, h2, h3, if_true, if_false]
            exact hr _ rfl
        · simp only [h1, h2, if_true, if_false]
          exact hr _ hV
      · simp only [h1, if_false]
        exact hcs V hV

theorem latch_TraverseChildren (v : String) (cs : List (Option Stmt)) :
    ∀ V : UnusedVariableVisitor, V.UnusedInAssign = true →
      (ReferenceWalker.TraverseChildren v cs V).UnusedInAssign = true :=
  latch_children v cs (fun c _ => (latch_node v c).1)

/-- The child loops agree when the walks of the children do. -/
theorem agrees_children (v : String) (cs : List (Option Stmt))
    (h : ∀ c, some c ∈ cs →
      Agrees (UnusedVariableVisitor.TraverseStmt v (some c))
        (ReferenceWalker.TraverseStmt v (some c))) :
    Agrees (RecursiveASTVisitor.TraverseChildren v cs)
      (ReferenceWalker.TraverseChildren v cs) := by
  induction cs with
  | nil =>
    intro V
    left
    rw [UnusedVariableVisitor.TraverseChildren_nil, ref_TraverseChildren_nil]
    exact ⟨rfl, rfl⟩
  | cons d ds ih =>
    intro V
    have hd : Agrees (UnusedVariableVisitor.TraverseStmt v d)
        (ReferenceWalker.TraverseStmt v d) := by
      cases d with
      | none =>
        intro W
        left
        rw [UnusedVariableVisitor.TraverseStmt_none, ref_TraverseStmt_none]
        exact ⟨rfl, rfl⟩
      | some c => exact h c (List.mem_cons_self _ _)
    have hrest := ih (fun c hc => h c (List.mem_cons_of_mem _ hc))
    rw [UnusedVariableVisitor.TraverseChildren_cons, ref_TraverseChildren_cons]
    rcases hd V with ⟨hb, he⟩ | ⟨hu, hru⟩
    · rw [if_pos hb, he]
      exact hrest _
    · right
      refine ⟨?_, latch_TraverseChildren v ds _ hru⟩
      by_cases hb : (UnusedVariableVisitor.TraverseStmt v d V).1 = true
      · rw [if_pos hb]
        exact (latches_TraverseChildren v ds _).1 hu
      · rw [if_neg hb]
        exact hu

/-- On every node the walker and the reference walker agree, and so do the two child loops
over the node's children. -/
theorem agrees_node (v : String) (s : Stmt) :
    Agrees (UnusedVariableVisitor.TraverseStmt v (some s))
        (ReferenceWalker.TraverseStmt v (some s)) ∧
      Agrees (RecursiveASTVisitor.TraverseChildren v s.children)
        (ReferenceWalker.TraverseChildren v s.children) := by
  induction s using Stmt.children_induction with
  | h s ih =>
    have hcs := agrees_children v s.children (fun c hc => (ih c hc).1)
    refine ⟨?_, hcs⟩
    have lift : ∀ (cs : List (Option Stmt)),
        Agrees (RecursiveASTVisitor.TraverseChildren v cs)
          (ReferenceWalker.TraverseChildren v cs) →
        ∀ W : UnusedVariableVisitor,
          ((true, (RecursiveASTVisitor.TraverseChildren v cs W).2).1 = true ∧
            (true, (RecursiveASTVisitor.TraverseChildren v cs W).2).2
              = ReferenceWalker.TraverseChildren v cs W) ∨
          ((true, (RecursiveASTVisitor.TraverseChildren v cs W).2).2.UnusedInAssign = true ∧
            (ReferenceWalker.TraverseChildren v cs W).UnusedInAssign = true) := by
      intro cs hag W
      rcases hag W with ⟨_, he⟩ | ⟨hu, hru⟩
      · exact Or.inl ⟨rfl, he⟩
      · exact Or.inr ⟨hu, hru⟩
    intro V
    cases ha : s.asAssignment with
    | none =>
      rw [UnusedVariableVisitor.TraverseStmt_generic v ha, ref_TraverseStmt_generic v ha]
      exact lift _ hcs _
    | some lr =>
      obtain ⟨l, r⟩ := lr
      have hr := (ih r (asAssignment_rhs_mem ha)).2
      rw [UnusedVariableVisitor.TraverseStmt_assign v ha, ref_TraverseStmt_assign v ha,
        UnusedVariableVisitor.ProcessAssignmentOperator_eq, ref_ProcessAssignmentOperator_eq]
      by_cases h1 : isDeclRefExpr l = true
      · by_cases h2 : refersTo v l = true
        · by_cases h3 : V.FoundUsage = true
          · rw [if_pos h1, if_pos h2, if_pos h3, if_pos h1, if_pos h2, if_pos h3]
            exact lift _ hr _
          · rw [if_pos h1, if_pos h2, if_neg h3, if_pos h1, if_pos h2, if_neg h3]
            right
            exact ⟨rfl, latch_TraverseChildren v _ _ rfl⟩
        · rw [if_pos h1, if_neg h2, if_pos h1, if_neg h2]
          exact lift _ hr _
      · rw [if_neg h1, if_neg h1]
        exact lift _ hcs _

end ReferenceWalker

/-! ## The scope selector -/

namespace UnusedNtdObjectCheck

/-- One match of `FunctionScope` for a descendant statement, with the block `Body` bound to
"scope". -/
theorem FunctionScope_eq (T : List String) (Body : List BodyStmt) :
    FunctionScope T (.CompoundStmt Body)
      = (BodyStmt.descendantsList Body).filterMap
          (fun d => (declStmtMatcher T d).map
            (fun Variable => { scope := Body, declStmt := d, localValue := Variable })) := by
  simp [FunctionScope, BodyStmt.descendants]

theorem declStmtMatcher_some {T : List String} {d : BodyStmt} {v : DeclaredVar}
    (h : declStmtMatcher T d = some v) :
    ∃ Decls, d = .DeclStmt Decls ∧ Decls.any (fun x => x.isDecomposition) = false ∧
      Decls.find? (LocalValDecl T) = some v := by
  cases d with
  | DeclStmt Decls =>
    refine ⟨Decls, rfl, ?_⟩
    simp only [declStmtMatcher, containsAnyDeclaration] at h
    cases hf : Decls.find? (LocalValDecl T) with
    | none => simp [hf] at h
    | some w =>
      rw [hf] at h
      by_cases hd : Decls.any (fun x => x.isDecomposition) = true
      · simp [hd] at h
      · simp only [hd] at h
        simp only [Bool.not_eq_true] at hd
        simp only [Bool.false_eq_true, if_false, Option.some.injEq] at h
        exact ⟨hd, by rw [h]⟩
  | CompoundStmt b => simp [declStmtMatcher] at h
  | Expr e => simp [declStmtMatcher] at h
  | Other cs => simp [declStmtMatcher] at h

theorem declStmtMatcher_DeclStmt {T : List String} {Decls : List DeclaredVar} {v : DeclaredVar}
    (hd : Decls.any (fun x => x.isDecomposition) = false)
    (hf : Decls.find? (LocalValDecl T) = some v) :
    declStmtMatcher T (.DeclStmt Decls) = some v := by
  simp [declStmtMatcher, containsAnyDeclaration, hf, hd]

theorem length_filterMap_eq {α β : Type} (f : α → Option β) (l : List α) :
    (l.filterMap f).length = (l.filter (fun x => (f x).isSome)).length := by
  induction l with
  | nil => rfl
  | cons a l ih =>
    cases h : f a with
    | none => simp [List.filterMap_cons, List.filter_cons, h, ih]
    | some b => simp [List.filterMap_cons, List.filter_cons, h, ih]

end UnusedNtdObjectCheck

namespace InnermostBlock

open UnusedNtdObjectCheck

mutual
/-- The matches of the innermost-block selector below a statement, with every block replaced
by `Body`, are the matches of the descendant search on the statement and its descendants. -/
theorem select_map_scope (T : List String) (Body : List BodyStmt) :
    ∀ (n : BodyStmt) (E : List BodyStmt),
      (InnermostBlock.select T E n).map (fun r => { r with scope := Body })
        = (n :: BodyStmt.descendants n).filterMap
            (fun d => (declStmtMatcher T d).map
              (fun Variable => { scope := Body, declStmt := d, localValue := Variable }))
  | .CompoundStmt b, E => by
    have ih := selectList_map_scope T Body b b
    simp only [InnermostBlock.select, BodyStmt.descendants, List.filterMap_cons, declStmtMatcher,
      Option.map_none']
    exact ih
  | .DeclStmt Decls, E => by
    simp only [InnermostBlock.select, BodyStmt.descendants, List.filterMap_cons,
      List.filterMap_nil]
    cases declStmtMatcher T (.DeclStmt Decls) <;> simp
  | .Expr e, E => by
    simp [InnermostBlock.select, BodyStmt.descendants, declStmtMatcher]
  | .Other cs, E => by
    have ih := selectList_map_scope T Body cs E
    simp only [InnermostBlock.select, BodyStmt.descendants, List.filterMap_cons, declStmtMatcher,
      Option.map_none']
    exact ih
/-- The list form of `select_map_scope`. -/
theorem selectList_map_scope (T : List String) (Body : List BodyStmt) :
    ∀ (cs : List BodyStmt) (E : List BodyStmt),
      (InnermostBlock.selectList T E cs).map (fun r => { r with scope := Body })
        = (BodyStmt.descendantsList cs).filterMap
            (fun d => (declStmtMatcher T d).map
              (fun Variable => { scope := Body, declStmt := d, localValue := Variable }))
  | [], E => by simp [InnermostBlock.selectList, BodyStmt.descendantsList]
  | c :: cs, E => by
    have ih1 := select_map_scope T Body c E
    have ih2 := selectList_map_scope T Body cs E
    simp only [InnermostBlock.selectList, BodyStmt.descendantsList, List.map_append,
      List.filterMap_append, ih1, ih2]
end

end InnermostBlock

/-! ## The walker on the test functions -/

/-- The walker's verdict on each test function agrees with the expectations of the test file:
no warning in `simple_used_value`, `if_used_value`, `used_by_function` and `used_assign_lhs`, a
warning in `unused_simple`, `unused_reassigned` and `unused_checked_reassigned`. -/
theorem Tests.expected_verdicts :
    UnusedVariableVisitor.verdict "status" Tests.simple_used_value = false ∧
      UnusedVariableVisitor.verdict "status" Tests.if_used_value = false ∧
      UnusedVariableVisitor.verdict "status" Tests.used_by_function = false ∧
      UnusedVariableVisitor.verdict "for_ref" Tests.used_assign_lhs = false ∧
      UnusedVariableVisitor.verdict "for_ptr" Tests.used_assign_lhs = false ∧
      UnusedVariableVisitor.verdict "unused" Tests.unused_simple = true ∧
      UnusedVariableVisitor.verdict "unused" Tests.unused_reassigned = true ∧
      UnusedVariableVisitor.verdict "unused" Tests.unused_checked_reassigned = true := by
  simp [UnusedVariableVisitor.verdict, RecursiveASTVisitor.TraverseCompoundStmt,
    Tests.simple_used_value, Tests.if_used_value, Tests.used_by_function,
    Tests.used_assign_lhs, Tests.unused_simple, Tests.unused_reassigned,
    Tests.unused_checked_reassigned, Tests.DeclStmt, Tests.okCall, Tests.makeStatus,
    Tests.callWith, Tests.reassign, Stmt.CallExpr, Stmt.UnaryOperator,
    RecursiveASTVisitor.TraverseChildren, UnusedVariableVisitor.TraverseStmt,
    RecursiveASTVisitor.TraverseStmt, UnusedVariableVisitor.ProcessAssignmentOperator,
    Stmt.children, UnusedVariableVisitor.IsUnused]

/-! ## The claims -/

open UnusedVariableVisitor

/-- C1 (alternation on flat blocks): when every top-level statement of a block is neutral, a
read, or a write with a neutral right operand, a fresh walker reports "not unused" exactly
when the sequence of reads and writes, the neutral statements dropped, is non-empty, starts
with a read, ends with a read and has no two consecutive writes. -/
theorem C1_alternation (v : String) (body : List Stmt)
    (h : ∀ s ∈ body, (classify v s).isSome = true) :
    verdict v body = false ↔
      alternates ((body.filterMap (classify v)).filter (fun k => k != .neutral)) = true := by
  have hrun := flat_block_run v body h false
  have hfil : ∀ k ∈ (body.filterMap (classify v)).filter (fun k => k != .neutral),
      k ≠ StmtKind.neutral := by
    intro k hk
    have := (List.mem_filter.mp hk).2
    simpa using this
  rw [alternates_eq _ hfil, accept_filter, verdict_eq]
  have e : ({} : UnusedVariableVisitor) = { FoundUsage := false, UnusedInAssign := false } := rfl
  rw [e, hrun]
  cases accept false (List.filterMap (classify v) body) <;> simp

/-- Witness of C1: a declaration, a read, a write and a read alternate, and the variable is
not reported. -/
theorem C1_witness :
    (∀ s ∈ Tests.read_write_read, (classify "unused" s).isSome = true) ∧
      alternates ((Tests.read_write_read.filterMap (classify "unused")).filter
        (fun k => k != .neutral)) = true ∧
      verdict "unused" Tests.read_write_read = false :=
  ⟨by decide, by decide,
    (C1_alternation "unused" Tests.read_write_read (by decide)).mpr (by decide)⟩

/-- C2: a block that contains no reference node naming the tracked identifier is reported
unused by a fresh walker, whatever else it contains. -/
theorem C2_unreferenced_is_unused (v : String) (body : List Stmt)
    (h : ∀ s ∈ body, s.mentions v = false) : verdict v body = true := by
  rw [verdict_eq, skips_block v body h]
  rfl

/-- Witness of C2 on the test `unused_simple`. -/
theorem C2_witness_unused_simple :
    (∀ s ∈ Tests.unused_simple, s.mentions "unused" = false) ∧
      verdict "unused" Tests.unused_simple = true :=
  ⟨by decide, C2_unreferenced_is_unused "unused" Tests.unused_simple (by decide)⟩

/-- C3: in a block `pre ++ [x = e] ++ post` where the assignment (built-in or overloaded) has
the bare tracked identifier as left operand and no statement of `pre` mentions the
identifier, a fresh walker reports unused, whatever `e` and `post` contain. -/
theorem C3_write_without_prior_read (v : String) (pre post : List Stmt) (w l e : Stmt)
    (hw : w.asAssignment = some (l, e)) (hl : refersTo v l = true)
    (hpre : ∀ s ∈ pre, s.mentions v = false) :
    verdict v (pre ++ [w] ++ post) = true := by
  rw [verdict_eq, List.append_assoc, List.map_append, TraverseChildren_append,
    skips_block v pre hpre]
  simp only [if_true, List.singleton_append, List.map_cons]
  rw [TraverseChildren_cons, TraverseStmt_write v hw hl]
  simp [IsUnused]

/-- Witness of C3 on the test `unused_reassigned`. -/
theorem C3_witness_unused_reassigned :
    verdict "unused" ([Tests.DeclStmt] ++ [Tests.reassign] ++ []) = true :=
  C3_write_without_prior_read "unused" [Tests.DeclStmt] [] Tests.reassign
    (.DeclRefExpr (some "unused")) (.Other [some Tests.makeStatus]) rfl (by decide)
    (by decide)

/-- C4: a block whose last statement is an assignment with the bare tracked identifier as
left operand and a right operand that does not mention the identifier is reported unused,
whatever precedes the assignment. -/
theorem C4_final_write_is_unused (v : String) (pre : List Stmt) (w l e : Stmt)
    (hw : w.asAssignment = some (l, e)) (hl : refersTo v l = true)
    (he : e.mentions v = false) :
    verdict v (pre ++ [w]) = true := by
  rw [verdict_eq, List.map_append, TraverseChildren_append]
  have hpre := latches_TraverseChildren v (pre.map some) {}
  by_cases hb : (RecursiveASTVisitor.TraverseChildren v (pre.map some) {}).1 = true
  · rw [if_pos hb, List.map_cons, List.map_nil, TraverseChildren_cons,
      TraverseStmt_write v hw hl]
    by_cases hf : (RecursiveASTVisitor.TraverseChildren v (pre.map some) {}).2.FoundUsage = true
    · simp [hf, (skips_node v e he).2 _, TraverseChildren_nil, IsUnused]
    · simp [hf, IsUnused]
  · rw [if_neg hb]
    have := hpre.2 (by simpa using hb)
    simp [IsUnused, this]

/-- Witness of C4 on the test `unused_checked_reassigned`: the variable is read in the
condition, then reassigned as the last statement. -/
theorem C4_witness_unused_checked_reassigned :
    verdict "unused"
      ([Tests.DeclStmt,
        .Other [some (.UnaryOperator (Tests.okCall "unused")), some (.Other [some (.Other [])])]]
        ++ [Tests.reassign]) = true :=
  C4_final_write_is_unused "unused" _ Tests.reassign
    (.DeclRefExpr (some "unused")) (.Other [some Tests.makeStatus]) rfl (by decide)
    (by decide)

/-- C5, the code at the failing input: the block `sink = status;` has no write of `status`
and contains a reference to it, and the walker reports `status` unused: the reference is the
right operand itself, which the base-class traversal of line 137 does not examine. -/
theorem C5_code_at_failing_input :
    (∀ s ∈ Tests.read_by_assignment, s.hasWrite "status" = false) ∧
      (∃ s ∈ Tests.read_by_assignment, s.mentions "status" = true) ∧
      verdict "status" Tests.read_by_assignment = true := by
  refine ⟨by decide, by decide, ?_⟩
  simp [verdict, RecursiveASTVisitor.TraverseCompoundStmt, Tests.read_by_assignment,
    Tests.DeclStmt, RecursiveASTVisitor.TraverseChildren, TraverseStmt,
    RecursiveASTVisitor.TraverseStmt, ProcessAssignmentOperator, Stmt.children, IsUnused]

/-- C6, the code at the failing input: in `sink = status = absl::Status();` the only
reference to `status` is the bare left operand of the inner assignment, and the walker
reports `status` as not unused: the inner assignment is the right operand itself, which the
base-class traversal of line 137 does not examine, so its left operand is walked as a read. -/
theorem C6_code_at_failing_input :
    ((Tests.chained_assignment.map Stmt.subnodes).flatten.filter (refersTo "status")).length = 1 ∧
      (∃ s ∈ Tests.chained_assignment, ∃ n ∈ s.subnodes, isWrite "status" n = true) ∧
      verdict "status" Tests.chained_assignment = false := by
  refine ⟨by decide, by decide, ?_⟩
  simp [verdict, RecursiveASTVisitor.TraverseCompoundStmt, Tests.chained_assignment,
    Tests.DeclStmt, Tests.makeStatus, RecursiveASTVisitor.TraverseChildren, TraverseStmt,
    RecursiveASTVisitor.TraverseStmt, ProcessAssignmentOperator, Stmt.children, IsUnused]

/-- C7 (latch invariant): from a walk state with `UnusedInAssign` set, `TraverseStmt` on any
node (or null) ends with `UnusedInAssign` still set, so `IsUnused()` is true after it and
after any further statements walked from there. -/
theorem C7_latch (v : String) (S : Option Stmt) (V : UnusedVariableVisitor)
    (h : V.UnusedInAssign = true) :
    (TraverseStmt v S V).2.UnusedInAssign = true ∧
      (TraverseStmt v S V).2.IsUnused = true ∧
      ∀ rest : List (Option Stmt),
        (RecursiveASTVisitor.TraverseChildren v rest (TraverseStmt v S V).2).2.IsUnused
          = true := by
  have h1 := (latches_TraverseStmt v S V).1 h
  refine ⟨h1, by simp [IsUnused, h1], fun rest => ?_⟩
  have h2 := (latches_TraverseChildren v rest (TraverseStmt v S V).2).1 h1
  simp [IsUnused, h2]

/-- Witness of C7: a read of the identifier walked from a latched state. -/
theorem C7_witness :
    ({ FoundUsage := false, UnusedInAssign := true } : UnusedVariableVisitor).UnusedInAssign
        = true ∧
      (TraverseStmt "unused" (some (Tests.okCall "unused"))
        { FoundUsage := false, UnusedInAssign := true }).2.IsUnused = true :=
  ⟨rfl, (C7_latch "unused" (some (Tests.okCall "unused"))
    { FoundUsage := false, UnusedInAssign := true } rfl).2.1⟩

/-- C8 (assignment through a returned reference or pointer): in a block without a write of
the tracked identifier that contains, at any depth, an assignment whose left operand is a call
(or a unary operator applied to a call) taking the tracked identifier as an argument, the
assignment handler declines the node (`nullopt`: it is no write of the identifier), the walker
finds a usage on the assignment, and a fresh walker reports "not unused".  The argument is any
subtree without assignment nodes that mentions the identifier: the bare reference, or the
reference under the copy construction or cast of a by-value call. -/
theorem C8_assignment_through_call (v : String) (body : List Stmt)
    (top A lhs rhs callee arg : Stmt) (args : List Stmt)
    (hnw : ∀ s ∈ body, s.hasWrite v = false)
    (htop : top ∈ body) (hA : A ∈ top.subnodes)
    (hassign : A.asAssignment = some (lhs, rhs))
    (hlhs : lhs = .CallExpr callee args ∨ lhs = .UnaryOperator (.CallExpr callee args))
    (harg : arg ∈ args) (hna : arg.hasAssignment = false) (hma : arg.mentions v = true) :
    (∀ V, ProcessAssignmentOperator v lhs rhs V = (none, V)) ∧
      (∀ V, (TraverseStmt v (some A) V).2.FoundUsage = true) ∧
      verdict v body = false := by
  have hlhsOther : isDeclRefExpr lhs = false := by
    rcases hlhs with rfl | rfl <;> rfl
  have hPAO : ∀ V, ProcessAssignmentOperator v lhs rhs V = (none, V) := by
    intro V
    rw [ProcessAssignmentOperator_eq, if_neg (by simp [hlhsOther])]
  have hAw : A.hasWrite v = false := any_subnodes_mem (hnw top htop) hA
  have hlw : lhs.hasWrite v = false := any_subnodes_child hAw (asAssignment_lhs_mem hassign)
  have hAC : FindsUsage (RecursiveASTVisitor.TraverseChildren v A.children) :=
    findsUsage_children v _
      (fun d hd => (onlyReads_node v d (any_subnodes_child hAw hd)).1)
      ⟨lhs, asAssignment_lhs_mem hassign,
        findsUsage_call v callee arg args harg hna hma lhs hlhs hlw⟩
  have hAT : FindsUsage (TraverseStmt v (some A)) := by
    intro V
    rw [TraverseStmt_assign v hassign, hPAO]
    exact hAC V
  refine ⟨hPAO, hAT, ?_⟩
  have htopF := (findsUsage_of_subnode v A hAT hAC top (hnw top htop) hA).1
  have hreads : ∀ c, some c ∈ body.map some → OnlyReads (TraverseStmt v (some c)) :=
    fun c hc => (onlyReads_node v c (hnw c (mem_map_some hc))).1
  have hF := findsUsage_children v (body.map some) hreads
    ⟨top, List.mem_map_of_mem _ htop, htopF⟩ {}
  have hU := (onlyReads_children v (body.map some) hreads {}).2.1
  rw [verdict_eq]
  simp only [IsUnused, hF, hU]
  rfl

/-- Witness of C8 on the test `used_assign_lhs` as it stands, the arguments passed by value:
no warning for `for_ref` (`accepts_status_returns_ref(for_ref) = 7;`) and none for `for_ptr`
(`*accepts_status_returns_ptr(for_ptr) = 42;`). -/
theorem C8_witness :
    (∀ s ∈ Tests.used_assign_lhs, s.hasWrite "for_ref" = false) ∧
      (∀ s ∈ Tests.used_assign_lhs, s.hasWrite "for_ptr" = false) ∧
      verdict "for_ref" Tests.used_assign_lhs = false ∧
      verdict "for_ptr" Tests.used_assign_lhs = false :=
  ⟨by decide, by decide,
    (C8_assignment_through_call "for_ref" Tests.used_assign_lhs
      (.BinaryOperator true (Tests.callWith "accepts_status_returns_ref" "for_ref") (.Other []))
      (.BinaryOperator true (Tests.callWith "accepts_status_returns_ref" "for_ref") (.Other []))
      (Tests.callWith "accepts_status_returns_ref" "for_ref") (.Other [])
      (.Other [some (.DeclRefExpr (some "accepts_status_returns_ref"))])
      (.Other [some (.Other [some (.DeclRefExpr (some "for_ref"))])])
      [.Other [some (.Other [some (.DeclRefExpr (some "for_ref"))])]]
      (by decide) (by simp [Tests.used_assign_lhs]) (Stmt.self_mem_subnodes _) rfl
      (Or.inl rfl) (by simp) (by decide) (by decide)).2.2,
    (C8_assignment_through_call "for_ptr" Tests.used_assign_lhs
      (.BinaryOperator true
        (.UnaryOperator (Tests.callWith "accepts_status_returns_ptr" "for_ptr")) (.Other []))
      (.BinaryOperator true
        (.UnaryOperator (Tests.callWith "accepts_status_returns_ptr" "for_ptr")) (.Other []))
      (.UnaryOperator (Tests.callWith "accepts_status_returns_ptr" "for_ptr")) (.Other [])
      (.Other [some (.DeclRefExpr (some "accepts_status_returns_ptr"))])
      (.Other [some (.Other [some (.DeclRefExpr (some "for_ptr"))])])
      [.Other [some (.Other [some (.DeclRefExpr (some "for_ptr"))])]]
      (by decide) (by simp [Tests.used_assign_lhs]) (Stmt.self_mem_subnodes _) rfl
      (Or.inr rfl) (by simp) (by decide) (by decide)).2.2⟩

/-- C9 (self-referencing write `x = f(x)`): in a block made of a read of the tracked
identifier followed by a final assignment `x = e`, where `e` is a call without assignment nodes
that has the bare reference among its arguments, the traversal of the right operand after the
reset of `FoundUsage` finds the usage again, and a fresh walker reports "not unused".
Statements that do not mention the identifier (its declaration, for one) may come before the
read and between the read and the assignment. -/
theorem C9_self_referencing_write (v : String) (pre mid : List Stmt) (rd w l callee : Stmt)
    (args : List Stmt)
    (hpre : ∀ s ∈ pre, s.mentions v = false) (hmid : ∀ s ∈ mid, s.mentions v = false)
    (hrd : rd.hasAssignment = false) (hrdm : rd.mentions v = true)
    (hw : w.asAssignment = some (l, .CallExpr callee args)) (hl : refersTo v l = true)
    (harg : Stmt.DeclRefExpr (some v) ∈ args)
    (he : (Stmt.CallExpr callee args).hasAssignment = false) :
    (RecursiveASTVisitor.TraverseStmt v (some (.CallExpr callee args))
        { FoundUsage := false, UnusedInAssign := false }).2.FoundUsage = true ∧
      verdict v (pre ++ [rd] ++ mid ++ [w]) = false := by
  have hmem : some (Stmt.DeclRefExpr (some v)) ∈ (Stmt.CallExpr callee args).children := by
    simp [Stmt.CallExpr, Stmt.children, harg]
  have hreads : ∀ c, some c ∈ (Stmt.CallExpr callee args).children →
      OnlyReads (TraverseStmt v (some c)) :=
    fun c hc => (onlyReads_node v c
      (hasWrite_of_hasAssignment (any_subnodes_child he hc))).1
  have hF := findsUsage_children v _ hreads ⟨_, hmem, findsUsage_ref v⟩
  have hR := onlyReads_children v _ hreads
  refine ⟨by rw [base_some]; exact hF _, ?_⟩
  have h1 := (onlyReads_node v rd (hasWrite_of_hasAssignment hrd)).1 {}
  have h2 := findsUsage_node v rd hrd hrdm {}
  rw [verdict_eq, List.append_assoc, List.append_assoc, List.map_append,
    TraverseChildren_append, skips_block v pre hpre]
  simp only [if_true, List.singleton_append, List.map_cons]
  rw [TraverseChildren_cons, if_pos h1.1, List.map_append, TraverseChildren_append,
    skips_block v mid hmid]
  simp only [if_true, List.map_cons, List.map_nil]
  rw [TraverseChildren_cons, TraverseStmt_write v hw hl, if_pos h2]
  simp only [if_true, TraverseChildren_nil, IsUnused]
  rw [hF, (hR _).2.1]
  simpa using h1.2.1

/-- Witness of C9: `absl::Status unused; unused.ok(); unused = f(unused);`. -/
theorem C9_witness :
    verdict "unused"
      ([Tests.DeclStmt] ++ [Tests.okCall "unused"] ++ [] ++
        [.CXXOperatorCallExpr true
          [.DeclRefExpr (some "unused"),
           .CallExpr (.Other [some (.DeclRefExpr (some "f"))])
             [.DeclRefExpr (some "unused")]]]) = false :=
  (C9_self_referencing_write "unused" [Tests.DeclStmt] [] (Tests.okCall "unused")
    (.CXXOperatorCallExpr true
      [.DeclRefExpr (some "unused"),
       .CallExpr (.Other [some (.DeclRefExpr (some "f"))]) [.DeclRefExpr (some "unused")]])
    (.DeclRefExpr (some "unused")) (.Other [some (.DeclRefExpr (some "f"))])
    [.DeclRefExpr (some "unused")] (by decide) (by decide) (by decide) (by decide) rfl
    (by decide) (by simp) (by decide)).2

/-- C10, the code at the failing input: on the test `simple_used_value`
(`absl::Status status; return status.ok();`) the variable has no `unused` attribute and has an
identifier, and a fresh walker with the variable's name reports "not unused", so the claim
gives no diagnostic; when the storage of the destroyed temporary of line 156 no longer holds
the name (here it reads as the empty string), the comparison of line 99 fails on the
reference, `FoundUsage` stays false and `check` emits a diagnostic for the read variable. -/
theorem C10_code_at_failing_input :
    verdict "status" Tests.simple_used_value = false ∧
      UnusedNtdObjectCheck.check (fun _ => "") Tests.simple_used_value
          { hasUnusedAttr := false, Identifier := some "status", Location := 9 }
        = [{ Location := 9,
             Message := "%0 is unlikely to be RAII and is potentially unused",
             Argument := { hasUnusedAttr := false, Identifier := some "status",
                           Location := 9 } }] := by
  constructor <;>
    simp [UnusedNtdObjectCheck.check, verdict, RecursiveASTVisitor.TraverseCompoundStmt,
      Tests.simple_used_value, Tests.DeclStmt, Tests.okCall, Stmt.CallExpr,
      RecursiveASTVisitor.TraverseChildren, TraverseStmt, RecursiveASTVisitor.TraverseStmt,
      ProcessAssignmentOperator, Stmt.children, IsUnused]

/-- With a name storage that still holds the name, `check` does what the specification says:
it emits a diagnostic for a matched (scope, variable) pair exactly when the variable has no
`unused` attribute, has an identifier, and a fresh walker over the scope with that name
reports unused; what it emits is a single diagnostic at the variable's own location.  For
every name storage, a variable with the `unused` attribute or without an identifier is never
reported, and at most one diagnostic is emitted, at the variable's location. -/
theorem UnusedNtdObjectCheck.check_emits (LocalScope : List Stmt) (Variable : VarDecl) :
    (UnusedNtdObjectCheck.check (fun Name => Name) LocalScope Variable ≠ [] ↔
        (Variable.hasUnusedAttr = false ∧
          ∃ Name, Variable.Identifier = some Name ∧ verdict Name LocalScope = true)) ∧
      (∀ NameStorage : String → String,
        UnusedNtdObjectCheck.check NameStorage LocalScope Variable = [] ∨
        ∃ d, UnusedNtdObjectCheck.check NameStorage LocalScope Variable = [d] ∧
          d.Location = Variable.Location ∧ d.Argument = Variable) ∧
      (∀ NameStorage : String → String, Variable.hasUnusedAttr = true →
        UnusedNtdObjectCheck.check NameStorage LocalScope Variable = []) ∧
      (∀ NameStorage : String → String, Variable.Identifier = none →
        UnusedNtdObjectCheck.check NameStorage LocalScope Variable = []) := by
  obtain ⟨attr, ident, loc⟩ := Variable
  cases attr with
  | true => simp [UnusedNtdObjectCheck.check]
  | false =>
    cases ident with
    | none => simp [UnusedNtdObjectCheck.check]
    | some Name =>
      refine ⟨?_, fun NameStorage => ?_, fun NameStorage => ?_, fun NameStorage => ?_⟩
      · cases hv : verdict Name LocalScope <;> simp [UnusedNtdObjectCheck.check, hv]
      · cases hv : verdict (NameStorage Name) LocalScope <;>
          simp [UnusedNtdObjectCheck.check, hv]
      · simp
      · simp

/-- C11, as stated, fails on `{ { absl::Status status; } { absl::Status status; status.ok(); } }`:
the matches of the registered matcher are not those of the innermost-block selector.  Both
declarations are handed the whole function body (two statements), not their own blocks (one
and two statements); the first `status`, unused in its own block, gets the verdict "not unused"
from the read in the sibling block, and no diagnostic is emitted (the name read intact). -/
theorem C11_counterexample_sibling_blocks :
    UnusedNtdObjectCheck.FunctionScope ["::absl::Status"] Tests.sibling_blocks
        ≠ InnermostBlock.FunctionScope ["::absl::Status"] Tests.sibling_blocks ∧
      (UnusedNtdObjectCheck.FunctionScope ["::absl::Status"] Tests.sibling_blocks).map
          (fun r => r.scope.length) = [2, 2] ∧
      (InnermostBlock.FunctionScope ["::absl::Status"] Tests.sibling_blocks).map
          (fun r => r.scope.length) = [1, 2] ∧
      (UnusedNtdObjectCheck.FunctionScope ["::absl::Status"] Tests.sibling_blocks).map
          (fun r => verdict "status" (r.scope.map BodyStmt.toStmt)) = [false, false] ∧
      (InnermostBlock.FunctionScope ["::absl::Status"] Tests.sibling_blocks).map
          (fun r => verdict "status" (r.scope.map BodyStmt.toStmt)) = [true, false] ∧
      UnusedNtdObjectCheck.diagnostics (fun Name => Name) ["::absl::Status"]
          Tests.sibling_blocks = [] := by
  have h1 : (UnusedNtdObjectCheck.FunctionScope ["::absl::Status"] Tests.sibling_blocks).map
      (fun r => r.scope.length) = [2, 2] := by decide
  have h2 : (InnermostBlock.FunctionScope ["::absl::Status"] Tests.sibling_blocks).map
      (fun r => r.scope.length) = [1, 2] := by decide
  refine ⟨fun h => ?_, h1, h2, ?_, ?_, ?_⟩
  · rw [h, h2] at h1
    exact absurd h1 (by decide)
  all_goals
    simp [UnusedNtdObjectCheck.diagnostics, UnusedNtdObjectCheck.FunctionScope,
      InnermostBlock.FunctionScope, InnermostBlock.select, InnermostBlock.selectList,
      Tests.sibling_blocks, BodyStmt.descendants, BodyStmt.descendantsList,
      UnusedNtdObjectCheck.declStmtMatcher, UnusedNtdObjectCheck.containsAnyDeclaration,
      UnusedNtdObjectCheck.LocalValDecl, UnusedNtdObjectCheck.isLocal, Tests.statusVar,
      UnusedNtdObjectCheck.check, BodyStmt.toStmt, BodyStmt.toStmtList, Tests.okCall,
      Stmt.CallExpr, verdict, RecursiveASTVisitor.TraverseCompoundStmt,
      RecursiveASTVisitor.TraverseChildren, TraverseStmt, RecursiveASTVisitor.TraverseStmt,
      ProcessAssignmentOperator, Stmt.children, IsUnused]

/-- C11 as amended: for every function body and every matching declaration statement in it,
at any depth, the block handed to the walker is the outermost block of the function body.  The
matches are those of the innermost-block selector, in the same order, with every block
replaced by the function body; so a reference to the name anywhere in the function body is
walked for the verdict. -/
theorem C11_scope_is_function_body (T : List String) (Body : List BodyStmt)
    (NameStorage : String → String) :
    UnusedNtdObjectCheck.FunctionScope T (.CompoundStmt Body)
        = (InnermostBlock.FunctionScope T (.CompoundStmt Body)).map
            (fun r => { r with scope := Body }) ∧
      (∀ r ∈ UnusedNtdObjectCheck.FunctionScope T (.CompoundStmt Body), r.scope = Body) ∧
      UnusedNtdObjectCheck.diagnostics NameStorage T (.CompoundStmt Body)
        = ((UnusedNtdObjectCheck.FunctionScope T (.CompoundStmt Body)).map
            (fun r => UnusedNtdObjectCheck.check NameStorage (Body.map BodyStmt.toStmt)
              r.localValue.Var)).flatten := by
  have hscope : ∀ r ∈ UnusedNtdObjectCheck.FunctionScope T (.CompoundStmt Body),
      r.scope = Body := by
    intro r hr
    rw [UnusedNtdObjectCheck.FunctionScope_eq, List.mem_filterMap] at hr
    obtain ⟨d, _, hd⟩ := hr
    cases hm : UnusedNtdObjectCheck.declStmtMatcher T d with
    | none => simp [hm] at hd
    | some w =>
      simp only [hm, Option.map_some', Option.some.injEq] at hd
      rw [← hd]
  refine ⟨?_, hscope, ?_⟩
  · rw [UnusedNtdObjectCheck.FunctionScope_eq, InnermostBlock.FunctionScope,
      InnermostBlock.selectList_map_scope T Body Body Body]
  · rw [UnusedNtdObjectCheck.diagnostics]
    congr 1
    apply List.map_congr_left
    intro r hr
    rw [hscope r hr]

/-- C12, as stated, fails on `{ absl::Status a, b; a.ok(); }`: both variables of the
declaration statement qualify, but not each of them is produced.  The only match binds `a`;
`b`, which a fresh walker over the block reports unused, is never analysed and no diagnostic
is emitted (the name read intact). -/
theorem C12_counterexample_two_declarators :
    ¬ (∀ v ∈ [Tests.statusVar "a" 1, Tests.statusVar "b" 2],
        UnusedNtdObjectCheck.LocalValDecl ["::absl::Status"] v = true →
        ∃ r ∈ UnusedNtdObjectCheck.FunctionScope ["::absl::Status"] Tests.two_declarators,
          r.localValue.Var = v.Var) ∧
      (UnusedNtdObjectCheck.FunctionScope ["::absl::Status"] Tests.two_declarators).map
          (fun r => r.localValue.Var.Identifier) = [some "a"] ∧
      verdict "b"
          [BodyStmt.toStmt (.DeclStmt [Tests.statusVar "a" 1, Tests.statusVar "b" 2]),
           Tests.okCall "a"] = true ∧
      UnusedNtdObjectCheck.diagnostics (fun Name => Name) ["::absl::Status"]
          Tests.two_declarators = [] := by
  have h1 : (UnusedNtdObjectCheck.FunctionScope ["::absl::Status"] Tests.two_declarators).map
      (fun r => r.localValue.Var.Identifier) = [some "a"] := by decide
  refine ⟨fun h => ?_, h1, ?_, ?_⟩
  · obtain ⟨r, hr, he⟩ := h (Tests.statusVar "b" 2) (by simp) (by decide)
    have hmem : r.localValue.Var.Identifier
        ∈ (UnusedNtdObjectCheck.FunctionScope ["::absl::Status"] Tests.two_declarators).map
          (fun r => r.localValue.Var.Identifier) := List.mem_map_of_mem _ hr
    rw [h1, he] at hmem
    simp [Tests.statusVar] at hmem
  all_goals
    simp [UnusedNtdObjectCheck.diagnostics, UnusedNtdObjectCheck.FunctionScope,
      Tests.two_declarators, BodyStmt.descendants, BodyStmt.descendantsList,
      UnusedNtdObjectCheck.declStmtMatcher, UnusedNtdObjectCheck.containsAnyDeclaration,
      UnusedNtdObjectCheck.LocalValDecl, UnusedNtdObjectCheck.isLocal, Tests.statusVar,
      UnusedNtdObjectCheck.check, BodyStmt.toStmt, BodyStmt.toStmtList, Tests.okCall,
      Stmt.CallExpr, verdict, RecursiveASTVisitor.TraverseCompoundStmt,
      RecursiveASTVisitor.TraverseChildren, TraverseStmt, RecursiveASTVisitor.TraverseStmt,
      ProcessAssignmentOperator, Stmt.children, IsUnused]

/-- C12 as amended: the scope selector yields one (block, variable) pair per declaration
statement that declares at least one qualifying local variable and no decomposition: the
variable of the pair is the first qualifying variable of the statement.  Every match comes
from such a statement, every such statement below the function body gives a match, and there
are as many matches as matching declaration statements. -/
theorem C12_first_declaration_only (T : List String) (Body : List BodyStmt) :
    (∀ r ∈ UnusedNtdObjectCheck.FunctionScope T (.CompoundStmt Body),
        ∃ Decls, r.declStmt = .DeclStmt Decls ∧
          Decls.any (fun d => d.isDecomposition) = false ∧
          Decls.find? (UnusedNtdObjectCheck.LocalValDecl T) = some r.localValue) ∧
      (∀ Decls v, BodyStmt.DeclStmt Decls ∈ BodyStmt.descendants (.CompoundStmt Body) →
        Decls.any (fun d => d.isDecomposition) = false →
        Decls.find? (UnusedNtdObjectCheck.LocalValDecl T) = some v →
        ∃ r ∈ UnusedNtdObjectCheck.FunctionScope T (.CompoundStmt Body),
          r.declStmt = .DeclStmt Decls ∧ r.localValue = v) ∧
      (UnusedNtdObjectCheck.FunctionScope T (.CompoundStmt Body)).length
        = ((BodyStmt.descendants (.CompoundStmt Body)).filter
            (fun d => (UnusedNtdObjectCheck.declStmtMatcher T d).isSome)).length := by
  refine ⟨?_, ?_, ?_⟩
  · intro r hr
    rw [UnusedNtdObjectCheck.FunctionScope_eq, List.mem_filterMap] at hr
    obtain ⟨d, _, hd⟩ := hr
    cases hm : UnusedNtdObjectCheck.declStmtMatcher T d with
    | none => simp [hm] at hd
    | some w =>
      simp only [hm, Option.map_some', Option.some.injEq] at hd
      obtain ⟨Decls, h1, h2, h3⟩ := UnusedNtdObjectCheck.declStmtMatcher_some hm
      rw [← hd]
      exact ⟨Decls, h1, h2, h3⟩
  · intro Decls v hmem hdec hfind
    refine ⟨{ scope := Body, declStmt := .DeclStmt Decls, localValue := v }, ?_, rfl, rfl⟩
    rw [UnusedNtdObjectCheck.FunctionScope_eq, List.mem_filterMap]
    refine ⟨.DeclStmt Decls, by simpa [BodyStmt.descendants] using hmem, ?_⟩
    rw [UnusedNtdObjectCheck.declStmtMatcher_DeclStmt hdec hfind]
    rfl
  · rw [UnusedNtdObjectCheck.FunctionScope, UnusedNtdObjectCheck.length_filterMap_eq]
    congr 1
    apply List.filter_congr
    intro d _
    cases UnusedNtdObjectCheck.declStmtMatcher T d <;> rfl

/-- The generic rule on an ordinary node whose children are the two operands: both operands
are walked by `TraverseStmt`, and the node returns `true`. -/
theorem UnusedVariableVisitor.TraverseStmt_operands (v : String) (l r : Stmt)
    (V : UnusedVariableVisitor) :
    TraverseStmt v (some (.Other [some l, some r])) V
      = (true, (RecursiveASTVisitor.TraverseChildren v [some l, some r] V).2) := by
  have h0 : (Stmt.Other [some l, some r]).asAssignment = none := rfl
  rw [TraverseStmt_generic v h0]
  simp [refersTo, Stmt.children]

/-- An assignment whose left operand is not a `DeclRefExpr` at all is walked exactly as an
ordinary node with the two operands as children. -/
theorem UnusedVariableVisitor.TraverseStmt_assign_other_lhs (v : String) (s l r : Stmt)
    (ha : s.asAssignment = some (l, r)) (hl : isDeclRefExpr l = false)
    (V : UnusedVariableVisitor) :
    TraverseStmt v (some s) V = TraverseStmt v (some (.Other [some l, some r])) V := by
  rw [TraverseStmt_operands, TraverseStmt_assign v ha, ProcessAssignmentOperator_eq,
    if_neg (by simp [hl]), asAssignment_children ha]

/-- C13, the code at the failing input: on the assignment `sink = status` (left operand a bare
reference to another variable) from the initial state, `TraverseStmt` ends with `FoundUsage`
false, while the generic rule on an ordinary node with the same two operands as children ends
with `FoundUsage` true: the right operand itself is not examined by the base-class traversal
of line 137. -/
theorem C13_code_at_failing_input :
    Stmt.asAssignment
        (.CXXOperatorCallExpr true [.DeclRefExpr (some "sink"), .DeclRefExpr (some "status")])
        = some (.DeclRefExpr (some "sink"), .DeclRefExpr (some "status")) ∧
      refersTo "status" (.DeclRefExpr (some "sink")) = false ∧
      TraverseStmt "status"
        (some (.CXXOperatorCallExpr true
          [.DeclRefExpr (some "sink"), .DeclRefExpr (some "status")])) {}
        = (true, { FoundUsage := false, UnusedInAssign := false }) ∧
      TraverseStmt "status"
        (some (.Other [some (.DeclRefExpr (some "sink")), some (.DeclRefExpr (some "status"))])) {}
        = (true, { FoundUsage := true, UnusedInAssign := false }) := by
  refine ⟨rfl, by decide, ?_, ?_⟩ <;>
    simp [RecursiveASTVisitor.TraverseChildren, TraverseStmt,
      RecursiveASTVisitor.TraverseStmt, ProcessAssignmentOperator, Stmt.children]

/-- C14: a null sub-node is a no-op.  `TraverseStmt` on a null pointer, and the base-class
traversal on a null pointer, leave `FoundUsage` and `UnusedInAssign` unchanged and return
`true`; the walk of a child list is the walk of the list without its null pointers, and so is
the walk of a generic node with null children. -/
theorem C14_null_is_noop (v : String) (V : UnusedVariableVisitor) :
    TraverseStmt v none V = (true, V) ∧
      RecursiveASTVisitor.TraverseStmt v none V = (true, V) ∧
      (∀ cs : List (Option Stmt),
        RecursiveASTVisitor.TraverseChildren v cs V
          = RecursiveASTVisitor.TraverseChildren v (cs.filter Option.isSome) V) ∧
      (∀ cs : List (Option Stmt),
        TraverseStmt v (some (.Other cs)) V
          = TraverseStmt v (some (.Other (cs.filter Option.isSome))) V) := by
  have hkids : ∀ (cs : List (Option Stmt)) (W : UnusedVariableVisitor),
      RecursiveASTVisitor.TraverseChildren v cs W
        = RecursiveASTVisitor.TraverseChildren v (cs.filter Option.isSome) W := by
    intro cs
    induction cs with
    | nil => intro W; rfl
    | cons c cs ih =>
      intro W
      cases c with
      | none =>
        rw [TraverseChildren_cons, TraverseStmt_none]
        simpa using ih W
      | some s =>
        have e : (some s :: cs).filter Option.isSome = some s :: cs.filter Option.isSome := by
          simp
        rw [e, TraverseChildren_cons, TraverseChildren_cons, ih]
  refine ⟨TraverseStmt_none v V, by rw [RecursiveASTVisitor.TraverseStmt], fun cs => hkids cs V,
    fun cs => ?_⟩
  have h1 : (Stmt.Other cs).asAssignment = none := rfl
  have h2 : (Stmt.Other (cs.filter Option.isSome)).asAssignment = none := rfl
  rw [TraverseStmt_generic v h1, TraverseStmt_generic v h2]
  simp only [refersTo, Stmt.children]
  rw [hkids]

/-- C15 (early exit preserves the verdict): on every block, the verdict of the walker, which
stops the traversal of a child list at a write that finds no usage, equals the verdict of the
reference walker, which applies the same rules, sets `UnusedInAssign` at such a write and
traverses every child. -/
theorem C15_early_exit_preserves_verdict (v : String) (body : List Stmt) :
    verdict v body = ReferenceWalker.verdict v body := by
  have h := ReferenceWalker.agrees_children v (body.map some)
    (fun c _ => (ReferenceWalker.agrees_node v c).1) {}
  rw [verdict_eq, ReferenceWalker.verdict]
  rcases h with ⟨_, he⟩ | ⟨hu, hru⟩
  · rw [he]
  · simp [IsUnused, hu, hru]

/-- C16 (frame property): on a subtree that contains no reference node naming the tracked
identifier, `TraverseStmt` leaves `FoundUsage` and `UnusedInAssign` unchanged and returns
`true` from every walk state; so a block with such a statement inserted at any top-level
position has the same verdict as the block without it. -/
theorem C16_frame (v : String) (s : Stmt) (hm : s.mentions v = false) :
    (∀ V, TraverseStmt v (some s) V = (true, V)) ∧
      ∀ pre post : List Stmt, verdict v (pre ++ [s] ++ post) = verdict v (pre ++ post) := by
  have hs := (skips_node v s hm).1
  refine ⟨hs, fun pre post => ?_⟩
  have key : ∀ W, RecursiveASTVisitor.TraverseChildren v (some s :: post.map some) W
      = RecursiveASTVisitor.TraverseChildren v (post.map some) W := by
    intro W
    rw [TraverseChildren_cons, hs W]
    rfl
  have e : (pre ++ [s] ++ post).map some = pre.map some ++ (some s :: post.map some) := by
    simp
  rw [verdict_eq, verdict_eq, e, List.map_append,
    TraverseChildren_append v (pre.map some) (some s :: post.map some),
    TraverseChildren_append v (pre.map some) (post.map some), key]

/-- Witness of C16: the declaration statement `Sink sink;` in front of the block of
`unused_reassigned` changes neither the walk state nor the verdict. -/
theorem C16_witness :
    Tests.DeclStmt.mentions "unused" = false ∧
      verdict "unused" ([] ++ [Tests.DeclStmt] ++ Tests.unused_reassigned)
        = verdict "unused" ([] ++ Tests.unused_reassigned) :=
  ⟨by decide, (C16_frame "unused" Tests.DeclStmt (by decide)).2 [] Tests.unused_reassigned⟩
